import Mathlib

/-!
# Verification of the snowflake-cli project-definition engine

A shallow embedding, in Lean 4, of the core of the snowflake-cli
project-definition subsystem:

* identifier cleanup (`clean_identifier` from
  `src/snowcli/cli/project/util.py`);
* the three-tier environment lookup (`ProjectEnvironment` from
  `src/snowflake/cli/api/utils/models.py`);
* the schema-version model and entity validation
  (`src/snowflake/cli/api/project/schemas/project_definition.py`);
* the workspace manager's version gate
  (`src/snowflake/cli/_plugins/workspace/manager.py`);
* the definition deep-merge and the template-reference resolver.  The
  source files `dict_utils.py` and `definition_rendering.py` are not part
  of the tree; those two components are modelled from the specification
  (and checked against the behaviour pinned by
  `tests/api/utils/test_definition_rendering.py`).

Python dictionaries are embedded as association lists (`List (String × _)`,
first occurrence wins, mirroring unique-key dicts), machine integers as
`Int`/`Nat`, and fallible code as `Except`/`Option`.
-/

namespace SnowCLI

/-! ## Scalar values

Scalars of the YAML-like definition tree and of environment dictionaries:
strings, numbers, booleans and null (Python `None`). -/

inductive Scalar where
  | str : String → Scalar
  | int : Int → Scalar
  | bool : Bool → Scalar
  | null : Scalar
deriving DecidableEq, Repr

/-! ## Identifier cleanup (`clean_identifier`)

From `src/src/snowcli/cli/project/util.py`:

    def clean_identifier(input):
        return re.sub(r"[^a-z0-9_$]", "", f"{input}".lower())

`lowerChar` is `str.lower` restricted to its character-wise ASCII action
(A–Z, codes 65–90, are shifted by 32; every character of the allowed output
alphabet is left fixed, as in Python). -/

def lowerChar (c : Char) : Char :=
  if 65 ≤ c.toNat ∧ c.toNat ≤ 90 then Char.ofNat (c.toNat + 32) else c

/-- The character class `[a-z0-9_$]` of the regex: codes 97–122 (`a`–`z`),
48–57 (`0`–`9`), 95 (`_`) and 36 (`$`). -/
def isCleanChar (c : Char) : Bool :=
  (97 ≤ c.toNat && c.toNat ≤ 122) || (48 ≤ c.toNat && c.toNat ≤ 57)
    || c.toNat == 95 || c.toNat == 36

/-- `clean_identifier`: lowercase the string, then delete every character
outside `[a-z0-9_$]`. -/
def clean_identifier (s : String) : String :=
  String.mk ((s.data.map lowerChar).filter isCleanChar)

theorem lowerChar_fixed_of_clean {c : Char} (h : isCleanChar c = true) :
    lowerChar c = c := by
  unfold isCleanChar at h
  simp only [Bool.or_eq_true, Bool.and_eq_true, decide_eq_true_eq, beq_iff_eq] at h
  unfold lowerChar
  rw [if_neg]
  omega

/-- **C10**: `clean_identifier` is idempotent, and every character of its
output lies in the set `[a-z0-9_$]` (lowercase letters, digits, underscore,
dollar); every other character of the lowercased input is removed. -/
theorem clean_identifier_idempotent_and_alphabet (s : String) :
    clean_identifier (clean_identifier s) = clean_identifier s ∧
    ∀ c ∈ (clean_identifier s).data, isCleanChar c = true := by
  refine ⟨?_, ?_⟩
  · show String.mk _ = String.mk _
    congr 1
    show (((s.data.map lowerChar).filter isCleanChar).map lowerChar).filter isCleanChar
        = (s.data.map lowerChar).filter isCleanChar
    have hmap : ((s.data.map lowerChar).filter isCleanChar).map lowerChar
        = (s.data.map lowerChar).filter isCleanChar := by
      have := List.map_congr_left
        (l := (s.data.map lowerChar).filter isCleanChar)
        (f := lowerChar) (g := id)
        (fun a ha => lowerChar_fixed_of_clean (List.of_mem_filter ha))
      simpa using this
    rw [hmap]
    exact List.filter_eq_self.mpr (fun a ha => List.of_mem_filter ha)
  · intro c hc
    exact List.of_mem_filter hc

/-! ## Environment resolution layer (`ProjectEnvironment`)

From `src/src/snowflake/cli/api/utils/models.py`.  `default_env` and
`override_env` are the two model fields; the ambient process environment
(`os.environ`, read by `__getitem__`) has no global-state counterpart in
the embedding and is threaded as an explicit argument. -/

structure ProjectEnvironment where
  default_env : List (String × Scalar) := []
  override_env : List (String × Scalar) := []
deriving DecidableEq, Repr

/-- `__getitem__`: the override tier if the name is a key of
`override_env`, else the ambient process environment, else `default_env`;
`Option.none` models the `KeyError` escaping from `self.default_env[item]`. -/
def ProjectEnvironment.getitem (env : ProjectEnvironment)
    (osEnviron : List (String × String)) (item : String) : Option Scalar :=
  match env.override_env.lookup item with
  | some v => some v
  | Option.none =>
    match osEnviron.lookup item with
    | some v => some (Scalar.str v)
    | Option.none => env.default_env.lookup item

/-- `get(item, default=None)`: `self[item]`, with the `KeyError` caught and
turned into the supplied default. -/
def ProjectEnvironment.get (env : ProjectEnvironment)
    (osEnviron : List (String × String)) (item : String)
    (default : Scalar := Scalar.null) : Scalar :=
  (env.getitem osEnviron item).getD default

/-- `__contains__`: true exactly when `self[item]` does not raise. -/
def ProjectEnvironment.containsName (env : ProjectEnvironment)
    (osEnviron : List (String × String)) (item : String) : Bool :=
  (env.getitem osEnviron item).isSome

/-- **C3**: `get(name, default)` returns the override-tier value when the
name is a key of `override_env`, else the ambient process-environment value,
else the `default_env` value, else the supplied default (it is total, hence
never raises); and membership agrees with lookup: `contains` is true exactly
when the three-tier lookup finds the name, i.e. exactly when `get` would
return a tier value rather than fall through to the supplied default. -/
theorem projectEnvironment_get_precedence_and_contains
    (env : ProjectEnvironment) (osEnviron : List (String × String))
    (name : String) (d : Scalar) :
    (∀ v, env.override_env.lookup name = some v →
        env.get osEnviron name d = v) ∧
    (env.override_env.lookup name = Option.none →
      ∀ v, osEnviron.lookup name = some v →
        env.get osEnviron name d = Scalar.str v) ∧
    (env.override_env.lookup name = Option.none →
      osEnviron.lookup name = Option.none →
      ∀ v, env.default_env.lookup name = some v →
        env.get osEnviron name d = v) ∧
    (env.override_env.lookup name = Option.none →
      osEnviron.lookup name = Option.none →
      env.default_env.lookup name = Option.none →
        env.get osEnviron name d = d) ∧
    (env.containsName osEnviron name = true ↔
        env.getitem osEnviron name ≠ Option.none) := by
  unfold ProjectEnvironment.get ProjectEnvironment.containsName
    ProjectEnvironment.getitem
  refine ⟨?_, ?_, ?_, ?_, ?_⟩
  · intro v hv; rw [hv]; rfl
  · intro h0 v hv; rw [h0, hv]; rfl
  · intro h0 h1 v hv; rw [h0, h1, hv]; rfl
  · intro h0 h1 h2; rw [h0, h1, h2]; rfl
  · cases h0 : env.override_env.lookup name with
    | some v => simp [h0]
    | none =>
      cases h1 : osEnviron.lookup name with
      | some v => simp [h0, h1]
      | none =>
        cases h2 : env.default_env.lookup name with
        | some v => simp [h0, h1, h2]
        | none => simp [h0, h1, h2]

/-- Witness for C3 at a concrete input: with the name present in all
three tiers, `get` returns the override-tier value. -/
theorem projectEnvironment_get_precedence_and_contains_witness :
    ProjectEnvironment.get
      ⟨[("A", Scalar.str "from_default")], [("A", Scalar.int 2)]⟩
      [("A", "from_os")] "A" Scalar.null = Scalar.int 2 :=
  (projectEnvironment_get_precedence_and_contains
      ⟨[("A", Scalar.str "from_default")], [("A", Scalar.int 2)]⟩
      [("A", "from_os")] "A" Scalar.null).1 (Scalar.int 2) rfl

/-! ## Schema version model

From `src/src/snowflake/cli/api/project/schemas/project_definition.py`.

`meets_version_requirement` compares `packaging.version.Version` values:

    def meets_version_requirement(self, required_version: str) -> bool:
        return Version(self.definition_version) >= Version(required_version)

For the plain dotted-numeric version strings used by the schema model
("1", "1.1", "2", ...), `packaging` parses the dot-separated release digits
and compares releases componentwise with zero padding. -/

/-- Split a character list on `.` (code 46). -/
def splitOnDot : List Char → List (List Char)
  | [] => [[]]
  | c :: rest =>
    let r := splitOnDot rest
    if c = '.' then [] :: r
    else
      match r with
      | [] => [[c]]
      | g :: gs => (c :: g) :: gs

/-- Decimal digits to a natural number (as `int(...)` on a digit string). -/
def digitsToNat (l : List Char) : Nat :=
  l.foldl (fun acc c => acc * 10 + (c.toNat - 48)) 0

/-- The release tuple of a version string: `Version("1.1").release == (1, 1)`. -/
def versionRelease (s : String) : List Nat :=
  (splitOnDot s.data).map digitsToNat

/-- Strict ordering of release tuples: componentwise numeric comparison
with implicit zero padding of the shorter tuple, as in `packaging.version`. -/
def releaseLt : List Nat → List Nat → Bool
  | [], b => b.any (fun y => decide (0 < y))
  | _ :: _, [] => false
  | x :: xs, y :: ys =>
    if x < y then true else if y < x then false else releaseLt xs ys

/-- `meets_version_requirement`: `Version(definition_version) >= Version(required_version)`. -/
def meets_version_requirement (definition_version required_version : String) : Bool :=
  ! releaseLt (versionRelease definition_version) (versionRelease required_version)

/-- Lexicographic (code-point) ordering on character lists. -/
def charListLt : List Char → List Char → Bool
  | [], [] => false
  | [], _ :: _ => true
  | _ :: _, [] => false
  | c :: cs, d :: ds =>
    if c.toNat < d.toNat then true
    else if d.toNat < c.toNat then false
    else charListLt cs ds

/-- Lexicographic string comparison (what the source does **not** use). -/
def stringLexGe (a b : String) : Bool :=
  ! charListLt a.data b.data

/-- **C7**: `meets_version_requirement` uses semantic-version ordering:
"1.1" meets requirement "1" and "2" meets requirement "1.1"; and the
ordering is numeric, not lexicographic — "2" does **not** meet requirement
"10" although "2" ≥ "10" lexicographically. -/
theorem meets_version_requirement_is_semver :
    meets_version_requirement "1.1" "1" = true ∧
    meets_version_requirement "2" "1.1" = true ∧
    meets_version_requirement "2" "10" = false ∧
    stringLexGe "2" "10" = true := by
  refine ⟨rfl, rfl, rfl, rfl⟩

/-! ### Accepted field sets of the schema versions (C5)

Transcribed from the pydantic class hierarchy of
`project_definition.py`: `_BaseDefinition` declares `definition_version`;
`_DefinitionV10` extends it with `native_app`, `snowpark`, `streamlit`;
`_DefinitionV11` extends V10 with `env`; `_DefinitionV20` extends
`_BaseDefinition` (not V11!) with `entities`, `defaults`, `env`. -/

def baseDefinitionFields : List String := ["definition_version"]

def definitionV10Fields : List String :=
  baseDefinitionFields ++ ["native_app", "snowpark", "streamlit"]

def definitionV11Fields : List String := definitionV10Fields ++ ["env"]

def definitionV20Fields : List String :=
  baseDefinitionFields ++ ["entities", "defaults", "env"]

/-- The `_version_map` of supported schema versions, each with its
accepted top-level field set. -/
def versionFieldSets : List (String × List String) :=
  [("1", definitionV10Fields), ("1.1", definitionV11Fields),
   ("2", definitionV20Fields)]

/-- **C5, counterexample**: the claim "the later version's accepted field
set is a superset of its predecessor's for every consecutive pair" fails at
the pair ("1.1", "2"): the field `native_app` is accepted by version "1.1"
but not by version "2", so v2's field set is not a superset of v1.1's. -/
theorem schema_fields_superset_counterexample :
    ("native_app" ∈ definitionV11Fields ∧
      "native_app" ∉ definitionV20Fields) ∧
    ¬ (∀ f ∈ definitionV11Fields, f ∈ definitionV20Fields) := by
  refine ⟨⟨by decide, by decide⟩, ?_⟩
  intro h
  exact absurd (h "native_app" (by decide)) (by decide)

/-- **C5, amended**: version "1.1" accepts every field of version "1"
(the superset claim holds for the pair ("1","1.1")); version "2" accepts
every field of the shared base, but of v1.1's fields it keeps exactly
`definition_version` and `env`, replacing the flat `native_app`,
`snowpark`, `streamlit` sections with the v2-only `entities` and
`defaults` fields. -/
theorem schema_fields_superset_amended :
    (∀ f ∈ definitionV10Fields, f ∈ definitionV11Fields) ∧
    (∀ f ∈ baseDefinitionFields, f ∈ definitionV20Fields) ∧
    (∀ f ∈ definitionV11Fields,
      (f ∈ definitionV20Fields ↔ f = "definition_version" ∨ f = "env")) ∧
    (∀ f ∈ definitionV20Fields,
      f ∉ definitionV11Fields → f = "entities" ∨ f = "defaults") := by
  refine ⟨?_, ?_, ?_, ?_⟩ <;> decide

/-! ## Entity validation for v2 definitions (C8)

From `_DefinitionV20.validate_entities` in `project_definition.py`:

    for key, entity in entities.items():
        entity_type = entity["entity_type"]
        if entity_type not in _entity_types_map:
            raise ValueError(f"Unsupported entity type: {entity_type}")
        entities[key] = _entity_types_map[entity_type](**entity)

with `_entity_types_map = {"application package": ApplicationPackageEntity}`. -/

/-- A raw (unvalidated) entity mapping: its `entity_type` discriminator
plus the remaining fields. -/
structure RawEntity where
  entity_type : String
  fields : List (String × Scalar)
deriving DecidableEq, Repr

/-- A validated entity model.  The per-type pydantic sub-schema
`ApplicationPackageEntity` is not part of the tree; its constructor is
abstracted as tagging the entity's fields with its model type. -/
inductive EntityModel where
  | applicationPackage : List (String × Scalar) → EntityModel
deriving DecidableEq, Repr

/-- `_entity_types_map`: discriminator value to per-type model constructor. -/
def entityTypesMap : List (String × (RawEntity → EntityModel)) :=
  [("application package", fun e => EntityModel.applicationPackage e.fields)]

/-- `validate_entities`: walk the entities mapping in order; an entity whose
`entity_type` is not a key of `_entity_types_map` raises
`Unsupported entity type`; otherwise the entity is replaced by the result
of the per-type sub-schema selected by its discriminator. -/
def validate_entities :
    List (String × RawEntity) → Except String (List (String × EntityModel))
  | [] => Except.ok []
  | (key, entity) :: rest =>
    match entityTypesMap.lookup entity.entity_type with
    | Option.none => Except.error ("Unsupported entity type: " ++ entity.entity_type)
    | some mk =>
      match validate_entities rest with
      | Except.error e => Except.error e
      | Except.ok l => Except.ok ((key, mk entity) :: l)

/-- **C8**: validating the v2 entities mapping fails with a fatal
`Unsupported entity type` error whenever any entity's `entity_type`
discriminator is not a recognized entity type; and when every discriminator
is recognized, validation succeeds and each entity is validated against
(replaced by) the per-type sub-schema selected by its discriminator. -/
theorem validate_entities_discriminator_dispatch
    (entities : List (String × RawEntity)) :
    ((∃ ke ∈ entities, entityTypesMap.lookup ke.2.entity_type = Option.none) →
      ∃ t, validate_entities entities
            = Except.error ("Unsupported entity type: " ++ t) ∧
          entityTypesMap.lookup t = Option.none) ∧
    ((∀ ke ∈ entities, entityTypesMap.lookup ke.2.entity_type ≠ Option.none) →
      ∃ l, validate_entities entities = Except.ok l ∧
        List.Forall₂
          (fun (ke : String × RawEntity) (out : String × EntityModel) =>
            out.1 = ke.1 ∧
            some out.2 = (entityTypesMap.lookup ke.2.entity_type).map
              (fun mk => mk ke.2))
          entities l) := by
  induction entities with
  | nil =>
    refine ⟨?_, ?_⟩
    · rintro ⟨ke, hke, _⟩
      exact absurd hke (List.not_mem_nil ke)
    · intro _
      exact ⟨[], rfl, List.Forall₂.nil⟩
  | cons ke rest ih =>
    obtain ⟨key, entity⟩ := ke
    refine ⟨?_, ?_⟩
    · rintro ⟨ke0, hmem, hnone⟩
      rcases List.mem_cons.mp hmem with heq | hmem0
      · subst heq
        refine ⟨entity.entity_type, ?_, hnone⟩
        show validate_entities ((key, entity) :: rest) = _
        unfold validate_entities
        rw [hnone]
      · cases hlook : entityTypesMap.lookup entity.entity_type with
        | none =>
          refine ⟨entity.entity_type, ?_, hlook⟩
          show validate_entities ((key, entity) :: rest) = _
          unfold validate_entities
          rw [hlook]
        | some mk =>
          obtain ⟨t, hres, htnone⟩ := ih.1 ⟨ke0, hmem0, hnone⟩
          refine ⟨t, ?_, htnone⟩
          show validate_entities ((key, entity) :: rest) = _
          unfold validate_entities
          rw [hlook, hres]
    · intro hall
      have hhead := hall (key, entity) (List.mem_cons_self _ _)
      cases hlook : entityTypesMap.lookup entity.entity_type with
      | none => exact absurd hlook hhead
      | some mk =>
        obtain ⟨l, hres, hforall⟩ :=
          ih.2 (fun ke0 h0 => hall ke0 (List.mem_cons_of_mem _ h0))
        refine ⟨(key, mk entity) :: l, ?_, ?_⟩
        · show validate_entities ((key, entity) :: rest) = _
          unfold validate_entities
          rw [hlook, hres]
        · exact List.Forall₂.cons ⟨rfl, by rw [hlook]; rfl⟩ hforall

/-- Witness for C8 at a concrete input: an entity with the unrecognized
discriminator "streamlit" makes validation fail fatally. -/
theorem validate_entities_discriminator_dispatch_witness :
    ∃ t, validate_entities [("ui", ⟨"streamlit", []⟩)]
          = Except.error ("Unsupported entity type: " ++ t) ∧
        entityTypesMap.lookup t = Option.none :=
  (validate_entities_discriminator_dispatch [("ui", ⟨"streamlit", []⟩)]).1
    ⟨("ui", ⟨"streamlit", []⟩), List.mem_singleton.mpr rfl, rfl⟩

/-! ## Workspace manager version gate (C9)

From `WorkspaceManager.__init__` in
`src/src/snowflake/cli/_plugins/workspace/manager.py`:

    if not project_definition.meets_version_requirement("2"):
        raise InvalidProjectDefinitionVersionError(
            "2.x", project_definition.definition_version
        )
    self._project_definition = project_definition

The connection-derived fields (default role/warehouse) are out-of-scope
collaborators and are not part of the modelled state. -/

/-- The slice of a validated project definition the version gate reads. -/
structure ProjectDefinitionModel where
  definition_version : String
deriving DecidableEq, Repr

/-- The supported schema versions, `_version_map`'s keys. -/
def supportedVersions : List String := ["1", "1.1", "2"]

structure WorkspaceManager where
  project_definition : ProjectDefinitionModel
deriving DecidableEq, Repr

inductive WorkspaceInitError where
  | invalidProjectDefinitionVersion : String → String → WorkspaceInitError
deriving DecidableEq, Repr

/-- `WorkspaceManager.__init__`'s version gate. -/
def workspaceManagerInit (pd : ProjectDefinitionModel) :
    Except WorkspaceInitError WorkspaceManager :=
  if meets_version_requirement pd.definition_version "2" then
    Except.ok ⟨pd⟩
  else
    Except.error (WorkspaceInitError.invalidProjectDefinitionVersion
      "2.x" pd.definition_version)

/-- **C9**: constructing a `WorkspaceManager` raises an
invalid-project-definition-version error for every definition whose version
does not meet requirement "2"; every successfully constructed manager holds
the given definition, whose version meets requirement "2" — and, the
definition version being one of the supported versions "1"/"1.1"/"2", is
exactly the v2 version "2". -/
theorem workspaceManagerInit_requires_v2 (pd : ProjectDefinitionModel) :
    (meets_version_requirement pd.definition_version "2" = false →
      workspaceManagerInit pd
        = Except.error (WorkspaceInitError.invalidProjectDefinitionVersion
            "2.x" pd.definition_version)) ∧
    (∀ wm, workspaceManagerInit pd = Except.ok wm →
      wm.project_definition = pd ∧
      meets_version_requirement pd.definition_version "2" = true) ∧
    (pd.definition_version ∈ supportedVersions →
      ∀ wm, workspaceManagerInit pd = Except.ok wm →
        wm.project_definition.definition_version = "2") := by
  refine ⟨?_, ?_, ?_⟩
  · intro hf
    unfold workspaceManagerInit
    rw [hf]
    rfl
  · intro wm hok
    unfold workspaceManagerInit at hok
    by_cases hm : meets_version_requirement pd.definition_version "2" = true
    · rw [if_pos hm] at hok
      exact ⟨(Except.ok.injEq _ _ ▸ hok.symm).symm ▸ rfl, hm⟩
    · rw [if_neg hm] at hok
      exact absurd hok (by simp)
  · intro hs wm hok
    have hm : meets_version_requirement pd.definition_version "2" = true := by
      unfold workspaceManagerInit at hok
      by_cases hm0 : meets_version_requirement pd.definition_version "2" = true
      · exact hm0
      · rw [if_neg hm0] at hok
        exact absurd hok (by simp)
    have hwm : wm = ⟨pd⟩ := by
      unfold workspaceManagerInit at hok
      rw [if_pos hm] at hok
      cases hok
      rfl
    subst hwm
    show pd.definition_version = "2"
    simp only [supportedVersions, List.mem_cons, List.not_mem_nil, or_false] at hs
    rcases hs with h | h | h
    · rw [h] at hm
      exact absurd hm (by decide)
    · rw [h] at hm
      exact absurd hm (by decide)
    · exact h

/-- Witness for C9 at a concrete input: a v1.1 definition is rejected by
the workspace manager's constructor. -/
theorem workspaceManagerInit_requires_v2_witness :
    workspaceManagerInit ⟨"1.1"⟩
      = Except.error (WorkspaceInitError.invalidProjectDefinitionVersion
          "2.x" "1.1") :=
  (workspaceManagerInit_requires_v2 ⟨"1.1"⟩).1 rfl

/-! ## The raw definition tree

An untyped tree of mappings, sequences and scalars, as produced by
parsing the YAML-like definition files (mappings as association lists,
unique keys, insertion order preserved). -/

inductive Node where
  | scalar : Scalar → Node
  | map : List (String × Node) → Node
  | seq : List Node → Node
deriving Repr, Inhabited

/-! ## Deep merge of definition files (C6)

The function `deep_merge_dicts` of
`src/snowflake/cli/api/utils/dict_utils.py` is called by
`_get_merged_project_files` (`src/snowflake/cli/api/project/definition.py`)
but its source file is not part of the tree. -/

mutual
/-- Modelled from the spec: `deep_merge_dicts` (its source file
`dict_utils.py` is absent from the tree; only its caller
`_get_merged_project_files` is present).  Mapping values merge key-by-key
recursively; any other value type, sequences included, is replaced
wholesale by the later file's value. -/
def deepMerge : Node → Node → Node
  | Node.map a, Node.map b =>
    Node.map (deepMergeEntries a b ++ b.filter (fun e => (a.lookup e.1).isNone))
  | _, b => b

/-- Key-by-key recursive merge of the earlier file's entries with the
later file's mapping; keys keep their original position, later value wins
per key (recursively for mapping values). -/
def deepMergeEntries :
    List (String × Node) → List (String × Node) → List (String × Node)
  | [], _ => []
  | (k, v) :: rest, b =>
    (k, match b.lookup k with
        | some w => deepMerge v w
        | Option.none => v) :: deepMergeEntries rest b
end

/-- Is a node a mapping? -/
def Node.isMap : Node → Bool
  | Node.map _ => true
  | _ => false

/-- Association-list lookup distributes over append: the left list is
consulted first. -/
theorem assoc_lookup_append {β : Type} (l1 l2 : List (String × β)) (k : String) :
    (l1 ++ l2).lookup k
      = match l1.lookup k with
        | some v => some v
        | Option.none => l2.lookup k := by
  induction l1 with
  | nil => rfl
  | cons e rest ih =>
    obtain ⟨k1, v⟩ := e
    show List.lookup k ((k1, v) :: (rest ++ l2)) = _
    simp only [List.lookup]
    cases hk : k == k1
    · simpa using ih
    · rfl

/-- Per-key behaviour of the recursive entry merge: it keeps exactly the
earlier mapping's keys, merging the value recursively when the later
mapping also binds the key. -/
theorem deepMergeEntries_lookup (a b : List (String × Node)) (k : String) :
    (deepMergeEntries a b).lookup k
      = (a.lookup k).map (fun v =>
          match b.lookup k with
          | some w => deepMerge v w
          | Option.none => v) := by
  induction a with
  | nil => rfl
  | cons e rest ih =>
    obtain ⟨k1, v⟩ := e
    rw [show deepMergeEntries ((k1, v) :: rest) b
        = (k1, match b.lookup k1 with
               | some w => deepMerge v w
               | Option.none => v) :: deepMergeEntries rest b from by
      rw [deepMergeEntries]]
    simp only [List.lookup]
    cases hk : k == k1
    · simpa using ih
    · have hkeq : k = k1 := by simpa using hk
      subst hkeq
      rfl

/-- Keys of the later mapping that the earlier mapping does not bind are
looked up unchanged in the filtered tail. -/
theorem filter_unbound_lookup (a b : List (String × Node)) (k : String)
    (hk : a.lookup k = Option.none) :
    (b.filter (fun e => (a.lookup e.1).isNone)).lookup k = b.lookup k := by
  induction b with
  | nil => rfl
  | cons e rest ih =>
    obtain ⟨k2, w⟩ := e
    simp only [List.filter]
    cases hp : (a.lookup k2).isNone
    · have hne : (k == k2) = false := by
        cases hkk : k == k2
        · rfl
        · have hkeq : k = k2 := by simpa using hkk
          rw [hkeq] at hk
          rw [hk] at hp
          simp at hp
      show (rest.filter _).lookup k = List.lookup k ((k2, w) :: rest)
      simp only [List.lookup, hne]
      exact ih
    · show List.lookup k ((k2, w) :: rest.filter _) = List.lookup k ((k2, w) :: rest)
      simp only [List.lookup]
      cases hkk : k == k2
      · exact ih
      · rfl

/-- **C6**: deep-merging definition trees is recursive for mapping values
(merged key-by-key, the later file's value wins per key) and replace-wins
for every non-mapping value, sequences included; in particular merging
`{"a": {"x": 1, "y": 2}}` with `{"a": {"y": 3, "z": 4}}` yields
`{"a": {"x": 1, "y": 3, "z": 4}}`. -/
theorem deep_merge_recursive_maps_replace_rest :
    (deepMerge
        (Node.map [("a", Node.map
          [("x", Node.scalar (Scalar.int 1)), ("y", Node.scalar (Scalar.int 2))])])
        (Node.map [("a", Node.map
          [("y", Node.scalar (Scalar.int 3)), ("z", Node.scalar (Scalar.int 4))])])
      = Node.map [("a", Node.map
          [("x", Node.scalar (Scalar.int 1)), ("y", Node.scalar (Scalar.int 3)),
           ("z", Node.scalar (Scalar.int 4))])]) ∧
    (∀ a b, (Node.isMap a = false ∨ Node.isMap b = false) →
      deepMerge a b = b) ∧
    (∀ a b k, ∃ m, deepMerge (Node.map a) (Node.map b) = Node.map m ∧
      m.lookup k
        = match a.lookup k, b.lookup k with
          | some v, some w => some (deepMerge v w)
          | some v, Option.none => some v
          | Option.none, o => o) := by
  refine ⟨?_, ?_, ?_⟩
  · simp [deepMerge, deepMergeEntries, List.lookup, List.filter]
  · intro a b hab
    rcases hab with h | h
    · cases a with
      | scalar v => cases b <;> rfl
      | map entries => simp [Node.isMap] at h
      | seq items => cases b <;> rfl
    · cases b with
      | scalar v => cases a <;> rfl
      | map entries => simp [Node.isMap] at h
      | seq items => cases a <;> rfl
  · intro a b k
    refine ⟨deepMergeEntries a b ++ b.filter (fun e => (a.lookup e.1).isNone),
      by rw [deepMerge], ?_⟩
    rw [assoc_lookup_append, deepMergeEntries_lookup]
    cases ha : a.lookup k with
    | some v => cases hb : b.lookup k <;> rfl
    | none =>
      simp only [Option.map_none]
      exact filter_unbound_lookup a b k ha

/-- Witness for C6 at a concrete input: a sequence value is replaced
wholesale by the later file's sequence, not concatenated. -/
theorem deep_merge_recursive_maps_replace_rest_witness :
    deepMerge (Node.seq [Node.scalar (Scalar.int 1)])
        (Node.seq [Node.scalar (Scalar.int 2)])
      = Node.seq [Node.scalar (Scalar.int 2)] :=
  deep_merge_recursive_maps_replace_rest.2.1 _ _ (Or.inl rfl)

/-! ## Template reference resolver

Modelled from the spec: the resolver `render_definition_template` of
`src/snowflake/cli/api/utils/definition_rendering.py` is absent from the
tree (only its tests, `tests/api/utils/test_definition_rendering.py`, are
present).  The model follows the spec's algorithm for schema versions
1.1+: scan string scalars for `<% ... %>` reference segments, resolve each
referenced dotted path recursively and lazily, track the set of paths
currently being resolved to detect cycles, look environment references up
through the three tiers (override, ambient, in-file defaults), and return
override/ambient environment values verbatim. -/

/-- A dotted reference path, e.g. `ctx.env.A` as `["ctx", "env", "A"]`. -/
abbrev TPath := List String

/-- A parsed string value: literal chunks and `<% ... %>` reference
segments. -/
inductive TemplatePart where
  | lit : String → TemplatePart
  | ref : TPath → TemplatePart
deriving DecidableEq, Repr

/-- Strip leading and trailing spaces. -/
def trimSpaces (l : List Char) : List Char :=
  ((l.dropWhile (fun c => c = ' ')).reverse.dropWhile (fun c => c = ' ')).reverse

/-- Parse the inner text of a `<% ... %>` segment as a dotted path. -/
def parseRefPath (body : List Char) : TPath :=
  (splitOnDot (trimSpaces body)).map (fun g => String.mk g)

/-- Emit the accumulated literal chunk (reversed accumulator), if any. -/
def pushLit (acc : List Char) (parts : List TemplatePart) : List TemplatePart :=
  match acc with
  | [] => parts
  | _ => TemplatePart.lit (String.mk acc.reverse) :: parts

/-- Scan a character list into literal chunks and reference segments.
The flag is true while inside an open `<% ... %>` segment; an unterminated
open segment is kept as literal text. -/
def scanTemplateAux : Bool → List Char → List Char → List TemplatePart
  | false, acc, [] => pushLit acc []
  | false, acc, '<' :: '%' :: rest => pushLit acc (scanTemplateAux true [] rest)
  | false, acc, c :: rest => scanTemplateAux false (c :: acc) rest
  | true, acc, '%' :: '>' :: rest =>
    TemplatePart.ref (parseRefPath acc.reverse) :: scanTemplateAux false [] rest
  | true, acc, c :: rest => scanTemplateAux true (c :: acc) rest
  | true, acc, [] => [TemplatePart.lit (String.mk ('<' :: '%' :: acc.reverse))]

/-- The parsed template segments of a string value. -/
def templateParts (s : String) : List TemplatePart :=
  scanTemplateAux false [] s.data

/-- Decimal digit characters of a positive number (first argument is
fuel, always called with fuel ≥ the number). -/
def natDigits : Nat → Nat → List Char
  | 0, _ => []
  | _ + 1, 0 => []
  | fuel + 1, n + 1 =>
    natDigits fuel ((n + 1) / 10) ++ [Char.ofNat (48 + (n + 1) % 10)]

def natToString (n : Nat) : String :=
  if n = 0 then "0" else String.mk (natDigits n n)

/-- Stringification applied when a referenced value is spliced into
surrounding literal text (the spec's example renders boolean true as
"true"). -/
def stringifyScalar : Scalar → String
  | Scalar.str s => s
  | Scalar.int (Int.ofNat n) => natToString n
  | Scalar.int (Int.negSucc n) => "-" ++ natToString (n + 1)
  | Scalar.bool true => "true"
  | Scalar.bool false => "false"
  | Scalar.null => "None"

/-- Walk a dotted path into the tree (paths traverse mappings only;
bracket indexing into sequences is not part of the reference syntax). -/
def lookupNode : Node → List String → Option Node
  | n, [] => some n
  | Node.map entries, k :: rest =>
    match entries.lookup k with
    | some v => lookupNode v rest
    | Option.none => Option.none
  | Node.scalar _, _ :: _ => Option.none
  | Node.seq _, _ :: _ => Option.none

/-- What a reference path denotes: either an environment value that is
returned verbatim (override or ambient tier -- never template-expanded),
or a node of the definition tree (in-file values, template-expanded). -/
inductive Entry where
  | verbatim : Scalar → Entry
  | node : Node → Entry

/-- The resolver's input: the merged definition tree (its `env` section
holds the in-file environment defaults), the override context supplied by
the invoking command, and the ambient process environment. -/
structure RenderContext where
  tree : List (String × Node)
  overrideEnv : List (String × Scalar) := []
  osEnviron : List (String × String) := []

/-- Look a reference path up: `ctx.env.X` goes through the three
environment tiers (override verbatim, then ambient verbatim, then the
in-file `env` section of the tree); every other `ctx.`-path is looked up
in the tree; anything else is unknown. -/
def findEntry (rc : RenderContext) : TPath → Option Entry
  | ["ctx", "env", x] =>
    match rc.overrideEnv.lookup x with
    | some v => some (Entry.verbatim v)
    | Option.none =>
      match rc.osEnviron.lookup x with
      | some s => some (Entry.verbatim (Scalar.str s))
      | Option.none => (lookupNode (Node.map rc.tree) ["env", x]).map Entry.node
  | "ctx" :: rest => (lookupNode (Node.map rc.tree) rest).map Entry.node
  | _ => Option.none

inductive RenderError where
  | cycleDetected : TPath → RenderError
  | couldNotFind : TPath → RenderError
  | notScalar : TPath → RenderError
  | outOfFuel : RenderError
deriving DecidableEq, Repr

def pathDotted : TPath → String
  | [] => ""
  | [x] => x
  | x :: xs => x ++ "." ++ pathDotted xs

/-- The stable error message templates of the error reporting surface. -/
def renderErrorMessage : RenderError → String
  | RenderError.cycleDetected p =>
    "Cycle detected in templating variable " ++ pathDotted p
  | RenderError.couldNotFind p =>
    "Could not find template variable " ++ pathDotted p
  | RenderError.notScalar p =>
    "Template variable " ++ pathDotted p ++ " does not have a scalar value"
  | RenderError.outOfFuel => "resolution depth bound exceeded"

/-- Resolve each segment of a multi-segment (or literal-bearing) value
with the given reference resolver and concatenate the stringified results. -/
def concatPartsWith (res : TPath → Except RenderError Scalar) :
    List TemplatePart → Except RenderError String
  | [] => Except.ok ""
  | TemplatePart.lit s :: rest =>
    match concatPartsWith res rest with
    | Except.error e => Except.error e
    | Except.ok r => Except.ok (s ++ r)
  | TemplatePart.ref q :: rest =>
    match res q with
    | Except.error e => Except.error e
    | Except.ok v =>
      match concatPartsWith res rest with
      | Except.error e => Except.error e
      | Except.ok r => Except.ok (stringifyScalar v ++ r)

/-- Resolve one reference path.  `visited` is the set of paths currently
being resolved (the spec's "in progress" states): requesting a path that
is already in progress is the cycle condition.  The fuel argument bounds
the recursion depth; it is spent once per in-progress path, so any fuel
larger than the number of string-valued paths is never exhausted (proved
below).  Override- and ambient-tier environment values are returned
verbatim, never parsed.  A tree node is resolved by parsing its string
value: a value that is exactly one reference segment resolves to the
referenced value itself (type-preserving); any other segment list is
stringified and concatenated.  Non-scalar targets and unknown paths are
fatal. -/
def resolvePath (rc : RenderContext) :
    Nat → List TPath → TPath → Except RenderError Scalar
  | 0, _, _ => Except.error RenderError.outOfFuel
  | fuel + 1, visited, p =>
    match findEntry rc p with
    | Option.none => Except.error (RenderError.couldNotFind p)
    | some (Entry.verbatim v) => Except.ok v
    | some (Entry.node nd) =>
      if p ∈ visited then Except.error (RenderError.cycleDetected p)
      else
        match nd with
        | Node.scalar (Scalar.str s) =>
          match templateParts s with
          | [TemplatePart.ref q] => resolvePath rc fuel (p :: visited) q
          | parts =>
            match concatPartsWith
                (fun q => resolvePath rc fuel (p :: visited) q) parts with
            | Except.error e => Except.error e
            | Except.ok r => Except.ok (Scalar.str r)
        | Node.scalar v => Except.ok v
        | _ => Except.error (RenderError.notScalar p)

/-- Resolve one string value of the definition tree: exactly one segment
spanning the whole string is type-preserving, anything else is
stringified concatenation. -/
def resolveTemplateString (rc : RenderContext) (fuel : Nat)
    (visited : List TPath) (s : String) : Except RenderError Scalar :=
  match templateParts s with
  | [TemplatePart.ref q] => resolvePath rc fuel visited q
  | parts =>
    match concatPartsWith (fun q => resolvePath rc fuel visited q) parts with
    | Except.error e => Except.error e
    | Except.ok r => Except.ok (Scalar.str r)

mutual
/-- Walk the definition tree, resolving every string scalar (also inside
sequences) and rebuilding the tree; the first error halts the walk (no
partially resolved result is ever returned). -/
def resolveTree (rc : RenderContext) (fuel : Nat) : Node → Except RenderError Node
  | Node.scalar (Scalar.str s) =>
    match resolveTemplateString rc fuel [] s with
    | Except.error e => Except.error e
    | Except.ok v => Except.ok (Node.scalar v)
  | Node.scalar v => Except.ok (Node.scalar v)
  | Node.map entries =>
    match resolveTreeEntries rc fuel entries with
    | Except.error e => Except.error e
    | Except.ok l => Except.ok (Node.map l)
  | Node.seq items =>
    match resolveTreeSeq rc fuel items with
    | Except.error e => Except.error e
    | Except.ok l => Except.ok (Node.seq l)

def resolveTreeEntries (rc : RenderContext) (fuel : Nat) :
    List (String × Node) → Except RenderError (List (String × Node))
  | [] => Except.ok []
  | (k, v) :: rest =>
    match resolveTree rc fuel v with
    | Except.error e => Except.error e
    | Except.ok v2 =>
      match resolveTreeEntries rc fuel rest with
      | Except.error e => Except.error e
      | Except.ok l => Except.ok ((k, v2) :: l)

def resolveTreeSeq (rc : RenderContext) (fuel : Nat) :
    List Node → Except RenderError (List Node)
  | [] => Except.ok []
  | v :: rest =>
    match resolveTree rc fuel v with
    | Except.error e => Except.error e
    | Except.ok v2 =>
      match resolveTreeSeq rc fuel rest with
      | Except.error e => Except.error e
      | Except.ok l => Except.ok (v2 :: l)
end

mutual
/-- Paths (relative, through mappings) of all string-scalar nodes: the
universe of paths the resolver can mark as in progress. -/
def stringPaths : Node → List (List String)
  | Node.scalar (Scalar.str _) => [[]]
  | Node.scalar _ => []
  | Node.map entries => stringPathsEntries entries
  | Node.seq _ => []

def stringPathsEntries : List (String × Node) → List (List String)
  | [] => []
  | (k, v) :: rest =>
    (stringPaths v).map (fun q => k :: q) ++ stringPathsEntries rest
end

mutual
/-- All string scalar values of a tree, sequences included: exactly the
values the walk passes to `resolveTemplateString`. -/
def treeStrings : Node → List String
  | Node.scalar (Scalar.str s) => [s]
  | Node.scalar _ => []
  | Node.map entries => treeStringsEntries entries
  | Node.seq items => treeStringsSeq items

def treeStringsEntries : List (String × Node) → List String
  | [] => []
  | (_, v) :: rest => treeStrings v ++ treeStringsEntries rest

def treeStringsSeq : List Node → List String
  | [] => []
  | v :: rest => treeStrings v ++ treeStringsSeq rest
end

/-- The reference paths occurring in a segment list. -/
def refsOfParts : List TemplatePart → List TPath
  | [] => []
  | TemplatePart.ref q :: rest => q :: refsOfParts rest
  | TemplatePart.lit _ :: rest => refsOfParts rest

/-- All reference paths mentioned anywhere in the tree's string values. -/
def treeRefs (n : Node) : List TPath :=
  (treeStrings n).flatMap (fun s => refsOfParts (templateParts s))

/-- The in-progress path universe of a context, rooted at `ctx`. -/
def stringTPaths (rc : RenderContext) : List TPath :=
  (stringPaths (Node.map rc.tree)).map (fun q => "ctx" :: q)

/-- A fuel value the resolver can never exhaust: one more than the number
of string-valued paths. -/
def defaultFuel (rc : RenderContext) : Nat :=
  (stringTPaths rc).length + 1

/-- Resolve a whole definition: walk the merged tree with sufficient fuel. -/
def resolveDefinition (rc : RenderContext) : Except RenderError Node :=
  resolveTree rc (defaultFuel rc) (Node.map rc.tree)

/-- **C2**: a string value consisting of exactly one reference segment
spanning the entire string resolves to the referenced value itself, with
its native type preserved; a value whose segment list is anything else
(literal text around a segment, or several segments) only ever resolves
to a string. -/
theorem template_type_preservation (rc : RenderContext) (fuel : Nat)
    (visited : List TPath) (s : String) :
    (∀ q, templateParts s = [TemplatePart.ref q] →
      resolveTemplateString rc fuel visited s = resolvePath rc fuel visited q) ∧
    ((∀ q, templateParts s ≠ [TemplatePart.ref q]) →
      ∀ v, resolveTemplateString rc fuel visited s = Except.ok v →
        ∃ t, v = Scalar.str t) := by
  constructor
  · intro q hq
    unfold resolveTemplateString
    rw [hq]
  · intro hq v hv
    unfold resolveTemplateString at hv
    split at hv
    · case _ q hparts => exact absurd hparts (hq q)
    · split at hv
      · exact absurd hv (by simp)
      · exact ⟨_, (Except.ok.injEq _ _ ▸ hv).symm⟩

/-- Context for the C2 witness: in-file env declares a boolean `flag`. -/
def rcFlag : RenderContext :=
  { tree := [("definition_version", Node.scalar (Scalar.str "1.1")),
             ("env", Node.map [("flag", Node.scalar (Scalar.bool true))])] }

/-- Witness for C2 at the spec's concrete inputs: `<% ctx.env.flag %>`
resolves to boolean true; `prefix-<% ctx.env.flag %>` resolves to the
string "prefix-true". -/
theorem template_type_preservation_witness :
    resolveTemplateString rcFlag 3 [] "<% ctx.env.flag %>"
        = Except.ok (Scalar.bool true) ∧
    resolveTemplateString rcFlag 3 [] "prefix-<% ctx.env.flag %>"
        = Except.ok (Scalar.str "prefix-true") := by
  constructor
  · rw [(template_type_preservation rcFlag 3 [] "<% ctx.env.flag %>").1
      ["ctx", "env", "flag"] rfl]
    rfl
  · rfl

/-- Unfolding of `findEntry` at an environment path. -/
theorem findEntry_env (rc : RenderContext) (x : String) :
    findEntry rc ["ctx", "env", x]
      = match rc.overrideEnv.lookup x with
        | some v => some (Entry.verbatim v)
        | Option.none =>
          match rc.osEnviron.lookup x with
          | some s => some (Entry.verbatim (Scalar.str s))
          | Option.none =>
            (lookupNode (Node.map rc.tree) ["env", x]).map Entry.node := rfl

/-- One-step unfolding of `resolvePath` at positive fuel. -/
theorem resolvePath_succ (rc : RenderContext) (fuel : Nat)
    (visited : List TPath) (p : TPath) :
    resolvePath rc (fuel + 1) visited p
      = match findEntry rc p with
        | Option.none => Except.error (RenderError.couldNotFind p)
        | some (Entry.verbatim v) => Except.ok v
        | some (Entry.node nd) =>
          if p ∈ visited then Except.error (RenderError.cycleDetected p)
          else
            match nd with
            | Node.scalar (Scalar.str s) =>
              match templateParts s with
              | [TemplatePart.ref q] => resolvePath rc fuel (p :: visited) q
              | parts =>
                match concatPartsWith
                    (fun q => resolvePath rc fuel (p :: visited) q) parts with
                | Except.error e => Except.error e
                | Except.ok r => Except.ok (Scalar.str r)
            | Node.scalar v => Except.ok v
            | _ => Except.error (RenderError.notScalar p) := rfl

/-- Context for the C4 counterexample: the in-file env default `B`
references the in-file default `A`.  This is the definition of
`test_resolve_variables_in_project_cross_variable_dependencies` in
`tests/api/utils/test_definition_rendering.py`, which pins `B` to resolve
to "b=42". -/
def rcDefaults : RenderContext :=
  { tree := [("definition_version", Node.scalar (Scalar.str "1.1")),
             ("env", Node.map
               [("A", Node.scalar (Scalar.int 42)),
                ("B", Node.scalar (Scalar.str "b=<% ctx.env.A %>"))])] }

/-- **C4, counterexample**: the claim says environment values from the
in-file defaults tier are returned verbatim, never template-expanded; but
resolving `<% ctx.env.B %>` with the in-file default
`B = "b=<% ctx.env.A %>"`, `A = 42` yields the expanded string "b=42",
not the verbatim default. -/
theorem env_defaults_are_expanded_counterexample :
    resolvePath rcDefaults 4 [] ["ctx", "env", "B"]
        = Except.ok (Scalar.str "b=42") ∧
    Scalar.str "b=42" ≠ Scalar.str "b=<% ctx.env.A %>" := by
  exact ⟨rfl, by decide⟩

/-- **C4, amended**: override-context and ambient process-environment
values are returned verbatim as resolved values (ambient as strings) even
when their content contains `<% ... %>` syntax — they are never parsed for
template expansion; in-file env defaults, by contrast, are
template-expanded (once) like any other tree value, and a resolved result
is returned as-is, never re-scanned for template syntax. -/
theorem env_values_never_reexpanded (rc : RenderContext) (fuel : Nat)
    (visited : List TPath) (x : String) :
    (∀ v, rc.overrideEnv.lookup x = some v →
      resolvePath rc (fuel + 1) visited ["ctx", "env", x] = Except.ok v) ∧
    (rc.overrideEnv.lookup x = Option.none →
      ∀ s, rc.osEnviron.lookup x = some s →
        resolvePath rc (fuel + 1) visited ["ctx", "env", x]
          = Except.ok (Scalar.str s)) ∧
    (∀ s q t, templateParts s = [TemplatePart.ref q] →
      resolvePath rc (fuel + 1) visited q = Except.ok (Scalar.str t) →
      resolveTemplateString rc (fuel + 1) visited s
        = Except.ok (Scalar.str t)) := by
  refine ⟨?_, ?_, ?_⟩
  · intro v hv
    have hfe : findEntry rc ["ctx", "env", x] = some (Entry.verbatim v) := by
      rw [findEntry_env, hv]
    rw [resolvePath_succ, hfe]
  · intro h0 s hs
    have hfe : findEntry rc ["ctx", "env", x]
        = some (Entry.verbatim (Scalar.str s)) := by
      rw [findEntry_env, h0, hs]
    rw [resolvePath_succ, hfe]
  · intro s q t hq hv
    unfold resolveTemplateString
    rw [hq]
    exact hv

/-- Context for the C4 witness: the ambient process environment holds a
value that itself looks like a reference, as in
`test_env_variables_do_not_get_resolved`. -/
def rcAmbient : RenderContext :=
  { tree := [("definition_version", Node.scalar (Scalar.str "1.1"))],
    osEnviron := [("env_var", "<% ctx.definition_version %>")] }

/-- Witness for C4 (amended) at a concrete input: referencing
`ctx.env.env_var` returns the ambient value
`"<% ctx.definition_version %>"` literally, with no further expansion. -/
theorem env_values_never_reexpanded_witness :
    resolvePath rcAmbient 3 [] ["ctx", "env", "env_var"]
      = Except.ok (Scalar.str "<% ctx.definition_version %>") :=
  (env_values_never_reexpanded rcAmbient 2 [] "env_var").2.1 rfl
    "<% ctx.definition_version %>" rfl

/-! ## The reference dependency graph and cycle detection (C1)

A node of the dependency graph is a resolvable path; an edge goes from `a`
to `b` when the entry `a` denotes is a string-valued tree node one of whose
reference segments is `b` (override- and ambient-tier environment values
are returned verbatim and therefore have no outgoing edges). -/

def EdgeB (rc : RenderContext) (a b : TPath) : Prop :=
  ∃ s, findEntry rc a = some (Entry.node (Node.scalar (Scalar.str s))) ∧
    TemplatePart.ref b ∈ templateParts s

/-- `EdgeChain rc a ps b`: an edge path from `a` through the successive
vertices `ps` ending with an edge into `b`. -/
def EdgeChain (rc : RenderContext) : TPath → List TPath → TPath → Prop
  | a, [], b => EdgeB rc a b
  | a, x :: xs, b => EdgeB rc a x ∧ EdgeChain rc x xs b

/-- The definition contains a self-referential template chain: some path
leads back to itself through one or more edges. -/
def HasRefCycle (rc : RenderContext) : Prop :=
  ∃ p ps, EdgeChain rc p ps p

/-- `q` lies on a dependency cycle. -/
def OnRefCycle (rc : RenderContext) (q : TPath) : Prop :=
  ∃ ps, EdgeChain rc q ps q

/-- Appending one edge to an edge chain. -/
theorem edgeChain_snoc {rc : RenderContext} :
    ∀ {ps a b c}, EdgeChain rc a ps b → EdgeB rc b c →
      EdgeChain rc a (ps ++ [b]) c := by
  intro ps
  induction ps with
  | nil =>
    intro a b c hab hbc
    exact ⟨hab, hbc⟩
  | cons x xs ih =>
    intro a b c hab hbc
    exact ⟨hab.1, ih hab.2 hbc⟩

theorem resolvePath_zero (rc : RenderContext) (visited : List TPath)
    (p : TPath) :
    resolvePath rc 0 visited p = Except.error RenderError.outOfFuel := rfl

/-- Unfolding of `resolvePath` when the path denotes a tree node: the
cycle check comes first. -/
theorem resolvePath_succ_node {rc : RenderContext} {p : TPath} {nd : Node}
    (fuel : Nat) (visited : List TPath)
    (hfe : findEntry rc p = some (Entry.node nd)) :
    resolvePath rc (fuel + 1) visited p
      = if p ∈ visited then Except.error (RenderError.cycleDetected p)
        else
          match nd with
          | Node.scalar (Scalar.str s) =>
            match templateParts s with
            | [TemplatePart.ref q] => resolvePath rc fuel (p :: visited) q
            | parts =>
              match concatPartsWith
                  (fun q => resolvePath rc fuel (p :: visited) q) parts with
              | Except.error e => Except.error e
              | Except.ok r => Except.ok (Scalar.str r)
          | Node.scalar v => Except.ok v
          | _ => Except.error (RenderError.notScalar p) := by
  rw [resolvePath_succ, hfe]

/-- Unfolding of `resolvePath` for an in-progress-free string-valued tree
path: one fuel step is spent, the path is marked in progress, and its
string value is resolved. -/
theorem resolvePath_succ_string {rc : RenderContext} {p : TPath} {s : String}
    (fuel : Nat) (visited : List TPath)
    (hfe : findEntry rc p = some (Entry.node (Node.scalar (Scalar.str s))))
    (hmem : p ∉ visited) :
    resolvePath rc (fuel + 1) visited p
      = resolveTemplateString rc fuel (p :: visited) s := by
  rw [resolvePath_succ_node fuel visited hfe, if_neg hmem]
  rfl

/-- A path with a tree-node entry that is already in progress never
resolves successfully (the cycle check fires first). -/
theorem resolvePath_no_ok_of_mem {rc : RenderContext} {p : TPath}
    {visited : List TPath} {nd : Node}
    (hfe : findEntry rc p = some (Entry.node nd)) (hmem : p ∈ visited) :
    ∀ (fuel : Nat) (v : Scalar),
      resolvePath rc fuel visited p ≠ Except.ok v := by
  intro fuel v h
  cases fuel with
  | zero =>
    rw [resolvePath_zero] at h
    exact absurd h (by simp)
  | succ f =>
    rw [resolvePath_succ_node f visited hfe, if_pos hmem] at h
    exact absurd h (by simp)

/-- Every reference resolved during a successful concatenation resolved
successfully. -/
theorem concatPartsWith_ok_refs {res : TPath → Except RenderError Scalar}
    {parts : List TemplatePart} {r : String}
    (h : concatPartsWith res parts = Except.ok r) :
    ∀ q, TemplatePart.ref q ∈ parts → ∃ w, res q = Except.ok w := by
  induction parts generalizing r with
  | nil =>
    intro q hq
    exact absurd hq (List.not_mem_nil _)
  | cons part rest ih =>
    intro q hq
    cases part with
    | lit s =>
      rw [show concatPartsWith res (TemplatePart.lit s :: rest)
          = (match concatPartsWith res rest with
             | Except.error e => Except.error e
             | Except.ok r => Except.ok (s ++ r)) from by
        rw [concatPartsWith]] at h
      cases hrest : concatPartsWith res rest with
      | error e =>
        rw [hrest] at h
        exact absurd h (by simp)
      | ok r2 =>
        rcases List.mem_cons.mp hq with heq | hmem
        · exact absurd heq (by simp)
        · exact ih hrest q hmem
    | ref q2 =>
      rw [show concatPartsWith res (TemplatePart.ref q2 :: rest)
          = (match res q2 with
             | Except.error e => Except.error e
             | Except.ok v =>
               match concatPartsWith res rest with
               | Except.error e => Except.error e
               | Except.ok r => Except.ok (stringifyScalar v ++ r)) from by
        rw [concatPartsWith]] at h
      cases hres : res q2 with
      | error e =>
        rw [hres] at h
        exact absurd h (by simp)
      | ok v =>
        rw [hres] at h
        cases hrest : concatPartsWith res rest with
        | error e =>
          rw [hrest] at h
          exact absurd h (by simp)
        | ok r2 =>
          rcases List.mem_cons.mp hq with heq | hmem
          · have hq2 : q = q2 := by
              injection heq
            subst hq2
            exact ⟨v, hres⟩
          · exact ih hrest q hmem

/-- A failing concatenation fails because some reference fails with the
same error. -/
theorem concatPartsWith_error_refs {res : TPath → Except RenderError Scalar}
    {parts : List TemplatePart} {e : RenderError}
    (h : concatPartsWith res parts = Except.error e) :
    ∃ q, TemplatePart.ref q ∈ parts ∧ res q = Except.error e := by
  induction parts with
  | nil =>
    rw [show concatPartsWith res [] = Except.ok "" from rfl] at h
    exact absurd h (by simp)
  | cons part rest ih =>
    cases part with
    | lit s =>
      rw [show concatPartsWith res (TemplatePart.lit s :: rest)
          = (match concatPartsWith res rest with
             | Except.error e => Except.error e
             | Except.ok r => Except.ok (s ++ r)) from by
        rw [concatPartsWith]] at h
      cases hrest : concatPartsWith res rest with
      | error e2 =>
        rw [hrest] at h
        have he : e2 = e := by injection h
        subst he
        obtain ⟨q, hm, hr⟩ := ih hrest
        exact ⟨q, List.mem_cons_of_mem _ hm, hr⟩
      | ok r2 =>
        rw [hrest] at h
        exact absurd h (by simp)
    | ref q2 =>
      rw [show concatPartsWith res (TemplatePart.ref q2 :: rest)
          = (match res q2 with
             | Except.error e => Except.error e
             | Except.ok v =>
               match concatPartsWith res rest with
               | Except.error e => Except.error e
               | Except.ok r => Except.ok (stringifyScalar v ++ r)) from by
        rw [concatPartsWith]] at h
      cases hres : res q2 with
      | error e2 =>
        rw [hres] at h
        have he : e2 = e := by injection h
        subst he
        exact ⟨q2, List.mem_cons_self _ _, hres⟩
      | ok v =>
        rw [hres] at h
        cases hrest : concatPartsWith res rest with
        | error e2 =>
          rw [hrest] at h
          have he : e2 = e := by injection h
          subst he
          obtain ⟨q, hm, hr⟩ := ih hrest
          exact ⟨q, List.mem_cons_of_mem _ hm, hr⟩
        | ok r2 =>
          rw [hrest] at h
          exact absurd h (by simp)

/-- Every reference of a successfully resolved string value resolved
successfully. -/
theorem resolveTemplateString_ok_refs {rc : RenderContext} {fuel : Nat}
    {visited : List TPath} {s : String} {v : Scalar}
    (h : resolveTemplateString rc fuel visited s = Except.ok v) :
    ∀ q, TemplatePart.ref q ∈ templateParts s →
      ∃ w, resolvePath rc fuel visited q = Except.ok w := by
  intro q hq
  unfold resolveTemplateString at h
  split at h
  · case _ q2 hparts =>
    rw [hparts] at hq
    have hq2 : q = q2 := by
      rcases List.mem_cons.mp hq with heq | hmem
      · injection heq
      · exact absurd hmem (List.not_mem_nil _)
    subst hq2
    exact ⟨v, h⟩
  · cases hcw : concatPartsWith
        (fun q => resolvePath rc fuel visited q) (templateParts s) with
    | error e =>
      rw [hcw] at h
      exact absurd h (by simp)
    | ok r =>
      exact concatPartsWith_ok_refs hcw q hq

/-- A failing string value fails because of one of its references (its
error is the reference's error). -/
theorem resolveTemplateString_error_refs {rc : RenderContext} {fuel : Nat}
    {visited : List TPath} {s : String} {e : RenderError}
    (h : resolveTemplateString rc fuel visited s = Except.error e) :
    ∃ q, TemplatePart.ref q ∈ templateParts s ∧
      resolvePath rc fuel visited q = Except.error e := by
  unfold resolveTemplateString at h
  split at h
  · case _ q2 hparts =>
    exact ⟨q2, hparts ▸ List.mem_cons_self _ _, h⟩
  · cases hcw : concatPartsWith
        (fun q => resolvePath rc fuel visited q) (templateParts s) with
    | error e2 =>
      rw [hcw] at h
      have he : e2 = e := by injection h
      subst he
      exact concatPartsWith_error_refs hcw
    | ok r =>
      rw [hcw] at h
      exact absurd h (by simp)

/-- Inverting a successful resolution of a string-valued tree path: the
path was not in progress, one fuel step was spent, and the string value
resolved with the path marked in progress. -/
theorem resolvePath_ok_inversion {rc : RenderContext} {fuel : Nat}
    {visited : List TPath} {p : TPath} {v : Scalar} {s : String}
    (h : resolvePath rc fuel visited p = Except.ok v)
    (hfe : findEntry rc p = some (Entry.node (Node.scalar (Scalar.str s)))) :
    ∃ fuel2, fuel = fuel2 + 1 ∧ p ∉ visited ∧
      resolveTemplateString rc fuel2 (p :: visited) s = Except.ok v := by
  cases fuel with
  | zero =>
    rw [resolvePath_zero] at h
    exact absurd h (by simp)
  | succ fuel2 =>
    by_cases hmem : p ∈ visited
    · rw [resolvePath_succ_node fuel2 visited hfe, if_pos hmem] at h
      exact absurd h (by simp)
    · rw [resolvePath_succ_string fuel2 visited hfe hmem] at h
      exact ⟨fuel2, rfl, hmem, h⟩

/-- A successful resolution of an edge's source resolves the edge's
target successfully, one fuel step lower, with the source in progress. -/
theorem resolvePath_ok_ref_step {rc : RenderContext} {fuel : Nat}
    {visited : List TPath} {a b : TPath} {v : Scalar}
    (h : resolvePath rc fuel visited a = Except.ok v) (hedge : EdgeB rc a b) :
    ∃ fuel2 w, fuel = fuel2 + 1 ∧
      resolvePath rc fuel2 (a :: visited) b = Except.ok w := by
  obtain ⟨s, hfe, hrefmem⟩ := hedge
  obtain ⟨fuel2, hfuel, hmem, hrts⟩ := resolvePath_ok_inversion h hfe
  obtain ⟨w, hw⟩ := resolveTemplateString_ok_refs hrts b hrefmem
  exact ⟨fuel2, w, hfuel, hw⟩

/-- Successful resolution propagates along an edge chain, keeping the
chain's start in the in-progress set. -/
theorem edgeChain_ok_propagates {rc : RenderContext} :
    ∀ {ps a b}, EdgeChain rc a ps b →
    ∀ {fuel visited v}, resolvePath rc fuel visited a = Except.ok v →
    ∃ f2 vis2 w, resolvePath rc f2 vis2 b = Except.ok w ∧
      visited ⊆ vis2 ∧ a ∈ vis2 := by
  intro ps
  induction ps with
  | nil =>
    intro a b hchain fuel visited v h
    obtain ⟨fuel2, w, hfuel, hw⟩ := resolvePath_ok_ref_step h hchain
    exact ⟨fuel2, a :: visited, w, hw,
      List.subset_cons_self _ _, List.mem_cons_self _ _⟩
  | cons x xs ih =>
    intro a b hchain fuel visited v h
    obtain ⟨he, hrest⟩ := hchain
    obtain ⟨fuel2, w, hfuel, hw⟩ := resolvePath_ok_ref_step h he
    obtain ⟨f2, vis2, w2, hb, hsub, hxmem⟩ := ih hrest hw
    refine ⟨f2, vis2, w2, hb, ?_, ?_⟩
    · exact fun y hy => hsub (List.mem_cons_of_mem _ hy)
    · exact hsub (List.mem_cons_self _ _)

/-- A path lying on a dependency cycle never resolves successfully, from
any starting state. -/
theorem onRefCycle_no_success {rc : RenderContext} {q : TPath}
    (hcyc : OnRefCycle rc q) :
    ∀ fuel visited v, resolvePath rc fuel visited q ≠ Except.ok v := by
  obtain ⟨ps, hchain⟩ := hcyc
  intro fuel visited v h
  cases ps with
  | nil =>
    obtain ⟨fuel2, w, hfuel, hw⟩ := resolvePath_ok_ref_step h hchain
    obtain ⟨s, hfe, _⟩ := hchain
    exact resolvePath_no_ok_of_mem hfe (List.mem_cons_self _ _) fuel2 w hw
  | cons x xs =>
    obtain ⟨he, hrest⟩ := hchain
    obtain ⟨fuel2, w, hfuel, hw⟩ := resolvePath_ok_ref_step h he
    obtain ⟨f2, vis2, w2, hb, hsub, hxmem⟩ := edgeChain_ok_propagates hrest hw
    obtain ⟨s, hfe, _⟩ := he
    exact resolvePath_no_ok_of_mem hfe (hsub (List.mem_cons_self _ _)) f2 w2 hb

theorem resolvePath_succ_none {rc : RenderContext} {p : TPath}
    (fuel : Nat) (visited : List TPath) (hfe : findEntry rc p = Option.none) :
    resolvePath rc (fuel + 1) visited p
      = Except.error (RenderError.couldNotFind p) := by
  rw [resolvePath_succ, hfe]

theorem resolvePath_succ_verbatim {rc : RenderContext} {p : TPath} {v : Scalar}
    (fuel : Nat) (visited : List TPath)
    (hfe : findEntry rc p = some (Entry.verbatim v)) :
    resolvePath rc (fuel + 1) visited p = Except.ok v := by
  rw [resolvePath_succ, hfe]

mutual
/-- A successful walk of a tree resolved each of its string values
successfully. -/
theorem resolveTree_ok_strings (rc : RenderContext) (fuel : Nat) (n : Node) :
    ∀ m, resolveTree rc fuel n = Except.ok m →
      ∀ s ∈ treeStrings n,
        ∃ v, resolveTemplateString rc fuel [] s = Except.ok v := by
  intro m h s hs
  cases n with
  | scalar sc =>
    cases sc with
    | str s0 =>
      have hs0 : s = s0 := by simpa [treeStrings] using hs
      subst hs0
      rw [show resolveTree rc fuel (Node.scalar (Scalar.str s))
          = (match resolveTemplateString rc fuel [] s with
             | Except.error e => Except.error e
             | Except.ok v => Except.ok (Node.scalar v)) from by
        rw [resolveTree]] at h
      cases hrts : resolveTemplateString rc fuel [] s with
      | error e =>
        rw [hrts] at h
        exact absurd h (by simp)
      | ok v => exact ⟨v, rfl⟩
    | int i => simp [treeStrings] at hs
    | bool b => simp [treeStrings] at hs
    | null => simp [treeStrings] at hs
  | map entries =>
    rw [show resolveTree rc fuel (Node.map entries)
        = (match resolveTreeEntries rc fuel entries with
           | Except.error e => Except.error e
           | Except.ok l => Except.ok (Node.map l)) from by
      rw [resolveTree]] at h
    cases hre : resolveTreeEntries rc fuel entries with
    | error e =>
      rw [hre] at h
      exact absurd h (by simp)
    | ok l =>
      have hs2 : s ∈ treeStringsEntries entries := by
        simpa [treeStrings] using hs
      exact resolveTreeEntries_ok_strings rc fuel entries l hre s hs2
  | seq items =>
    rw [show resolveTree rc fuel (Node.seq items)
        = (match resolveTreeSeq rc fuel items with
           | Except.error e => Except.error e
           | Except.ok l => Except.ok (Node.seq l)) from by
      rw [resolveTree]] at h
    cases hre : resolveTreeSeq rc fuel items with
    | error e =>
      rw [hre] at h
      exact absurd h (by simp)
    | ok l =>
      have hs2 : s ∈ treeStringsSeq items := by
        simpa [treeStrings] using hs
      exact resolveTreeSeq_ok_strings rc fuel items l hre s hs2

theorem resolveTreeEntries_ok_strings (rc : RenderContext) (fuel : Nat)
    (entries : List (String × Node)) :
    ∀ l, resolveTreeEntries rc fuel entries = Except.ok l →
      ∀ s ∈ treeStringsEntries entries,
        ∃ v, resolveTemplateString rc fuel [] s = Except.ok v := by
  intro l h s hs
  cases entries with
  | nil => simp [treeStringsEntries] at hs
  | cons e rest =>
    obtain ⟨k, v⟩ := e
    rw [show resolveTreeEntries rc fuel ((k, v) :: rest)
        = (match resolveTree rc fuel v with
           | Except.error e => Except.error e
           | Except.ok v2 =>
             match resolveTreeEntries rc fuel rest with
             | Except.error e => Except.error e
             | Except.ok l => Except.ok ((k, v2) :: l)) from by
      rw [resolveTreeEntries]] at h
    cases h1 : resolveTree rc fuel v with
    | error e2 =>
      rw [h1] at h
      exact absurd h (by simp)
    | ok v2 =>
      rw [h1] at h
      cases h2 : resolveTreeEntries rc fuel rest with
      | error e2 =>
        rw [h2] at h
        exact absurd h (by simp)
      | ok l2 =>
        have hs2 : s ∈ treeStrings v ++ treeStringsEntries rest := by
          simpa [treeStringsEntries] using hs
        rcases List.mem_append.mp hs2 with hmem | hmem
        · exact resolveTree_ok_strings rc fuel v v2 h1 s hmem
        · exact resolveTreeEntries_ok_strings rc fuel rest l2 h2 s hmem

theorem resolveTreeSeq_ok_strings (rc : RenderContext) (fuel : Nat)
    (items : List Node) :
    ∀ l, resolveTreeSeq rc fuel items = Except.ok l →
      ∀ s ∈ treeStringsSeq items,
        ∃ v, resolveTemplateString rc fuel [] s = Except.ok v := by
  intro l h s hs
  cases items with
  | nil => simp [treeStringsSeq] at hs
  | cons v rest =>
    rw [show resolveTreeSeq rc fuel (v :: rest)
        = (match resolveTree rc fuel v with
           | Except.error e => Except.error e
           | Except.ok v2 =>
             match resolveTreeSeq rc fuel rest with
             | Except.error e => Except.error e
             | Except.ok l => Except.ok (v2 :: l)) from by
      rw [resolveTreeSeq]] at h
    cases h1 : resolveTree rc fuel v with
    | error e2 =>
      rw [h1] at h
      exact absurd h (by simp)
    | ok v2 =>
      rw [h1] at h
      cases h2 : resolveTreeSeq rc fuel rest with
      | error e2 =>
        rw [h2] at h
        exact absurd h (by simp)
      | ok l2 =>
        have hs2 : s ∈ treeStrings v ++ treeStringsSeq rest := by
          simpa [treeStringsSeq] using hs
        rcases List.mem_append.mp hs2 with hmem | hmem
        · exact resolveTree_ok_strings rc fuel v v2 h1 s hmem
        · exact resolveTreeSeq_ok_strings rc fuel rest l2 h2 s hmem
end

mutual
/-- A failing walk fails with the error of one of the tree's string
values. -/
theorem resolveTree_error_strings (rc : RenderContext) (fuel : Nat) (n : Node) :
    ∀ e, resolveTree rc fuel n = Except.error e →
      ∃ s ∈ treeStrings n,
        resolveTemplateString rc fuel [] s = Except.error e := by
  intro e h
  cases n with
  | scalar sc =>
    cases sc with
    | str s0 =>
      rw [show resolveTree rc fuel (Node.scalar (Scalar.str s0))
          = (match resolveTemplateString rc fuel [] s0 with
             | Except.error e => Except.error e
             | Except.ok v => Except.ok (Node.scalar v)) from by
        rw [resolveTree]] at h
      cases hrts : resolveTemplateString rc fuel [] s0 with
      | error e2 =>
        rw [hrts] at h
        have he : e2 = e := by injection h
        subst he
        exact ⟨s0, by simp [treeStrings], hrts⟩
      | ok v =>
        rw [hrts] at h
        exact absurd h (by simp)
    | int i => exact absurd h (by simp [resolveTree])
    | bool b => exact absurd h (by simp [resolveTree])
    | null => exact absurd h (by simp [resolveTree])
  | map entries =>
    rw [show resolveTree rc fuel (Node.map entries)
        = (match resolveTreeEntries rc fuel entries with
           | Except.error e => Except.error e
           | Except.ok l => Except.ok (Node.map l)) from by
      rw [resolveTree]] at h
    cases hre : resolveTreeEntries rc fuel entries with
    | error e2 =>
      rw [hre] at h
      have he : e2 = e := by injection h
      subst he
      obtain ⟨s, hmem, hs⟩ := resolveTreeEntries_error_strings rc fuel entries _ hre
      exact ⟨s, by simpa [treeStrings] using hmem, hs⟩
    | ok l =>
      rw [hre] at h
      exact absurd h (by simp)
  | seq items =>
    rw [show resolveTree rc fuel (Node.seq items)
        = (match resolveTreeSeq rc fuel items with
           | Except.error e => Except.error e
           | Except.ok l => Except.ok (Node.seq l)) from by
      rw [resolveTree]] at h
    cases hre : resolveTreeSeq rc fuel items with
    | error e2 =>
      rw [hre] at h
      have he : e2 = e := by injection h
      subst he
      obtain ⟨s, hmem, hs⟩ := resolveTreeSeq_error_strings rc fuel items _ hre
      exact ⟨s, by simpa [treeStrings] using hmem, hs⟩
    | ok l =>
      rw [hre] at h
      exact absurd h (by simp)

theorem resolveTreeEntries_error_strings (rc : RenderContext) (fuel : Nat)
    (entries : List (String × Node)) :
    ∀ e, resolveTreeEntries rc fuel entries = Except.error e →
      ∃ s ∈ treeStringsEntries entries,
        resolveTemplateString rc fuel [] s = Except.error e := by
  intro e h
  cases entries with
  | nil => exact absurd h (by simp [resolveTreeEntries])
  | cons kv rest =>
    obtain ⟨k, v⟩ := kv
    rw [show resolveTreeEntries rc fuel ((k, v) :: rest)
        = (match resolveTree rc fuel v with
           | Except.error e => Except.error e
           | Except.ok v2 =>
             match resolveTreeEntries rc fuel rest with
             | Except.error e => Except.error e
             | Except.ok l => Except.ok ((k, v2) :: l)) from by
      rw [resolveTreeEntries]] at h
    cases h1 : resolveTree rc fuel v with
    | error e2 =>
      rw [h1] at h
      have he : e2 = e := by injection h
      subst he
      obtain ⟨s, hmem, hs⟩ := resolveTree_error_strings rc fuel v _ h1
      exact ⟨s, by
        simp only [treeStringsEntries]
        exact List.mem_append.mpr (Or.inl hmem), hs⟩
    | ok v2 =>
      rw [h1] at h
      cases h2 : resolveTreeEntries rc fuel rest with
      | error e2 =>
        rw [h2] at h
        have he : e2 = e := by injection h
        subst he
        obtain ⟨s, hmem, hs⟩ := resolveTreeEntries_error_strings rc fuel rest _ h2
        exact ⟨s, by
          simp only [treeStringsEntries]
          exact List.mem_append.mpr (Or.inr hmem), hs⟩
      | ok l =>
        rw [h2] at h
        exact absurd h (by simp)

theorem resolveTreeSeq_error_strings (rc : RenderContext) (fuel : Nat)
    (items : List Node) :
    ∀ e, resolveTreeSeq rc fuel items = Except.error e →
      ∃ s ∈ treeStringsSeq items,
        resolveTemplateString rc fuel [] s = Except.error e := by
  intro e h
  cases items with
  | nil => exact absurd h (by simp [resolveTreeSeq])
  | cons v rest =>
    rw [show resolveTreeSeq rc fuel (v :: rest)
        = (match resolveTree rc fuel v with
           | Except.error e => Except.error e
           | Except.ok v2 =>
             match resolveTreeSeq rc fuel rest with
             | Except.error e => Except.error e
             | Except.ok l => Except.ok (v2 :: l)) from by
      rw [resolveTreeSeq]] at h
    cases h1 : resolveTree rc fuel v with
    | error e2 =>
      rw [h1] at h
      have he : e2 = e := by injection h
      subst he
      obtain ⟨s, hmem, hs⟩ := resolveTree_error_strings rc fuel v _ h1
      exact ⟨s, by
        simp only [treeStringsSeq]
        exact List.mem_append.mpr (Or.inl hmem), hs⟩
    | ok v2 =>
      rw [h1] at h
      cases h2 : resolveTreeSeq rc fuel rest with
      | error e2 =>
        rw [h2] at h
        have he : e2 = e := by injection h
        subst he
        obtain ⟨s, hmem, hs⟩ := resolveTreeSeq_error_strings rc fuel rest _ h2
        exact ⟨s, by
          simp only [treeStringsSeq]
          exact List.mem_append.mpr (Or.inr hmem), hs⟩
      | ok l =>
        rw [h2] at h
        exact absurd h (by simp)
end

/-- An entry that denotes a tree node was looked up in the tree at the
path's `ctx.`-relative remainder. -/
theorem findEntry_node_lookup {rc : RenderContext} {p : TPath} {nd : Node}
    (h : findEntry rc p = some (Entry.node nd)) :
    ∃ rest, p = "ctx" :: rest ∧
      lookupNode (Node.map rc.tree) rest = some nd := by
  unfold findEntry at h
  split at h
  · case _ x =>
    refine ⟨["env", x], rfl, ?_⟩
    cases ho : rc.overrideEnv.lookup x with
    | some v =>
      rw [ho] at h
      exact absurd h (by simp)
    | none =>
      rw [ho] at h
      cases hos : rc.osEnviron.lookup x with
      | some s =>
        rw [hos] at h
        exact absurd h (by simp)
      | none =>
        rw [hos] at h
        cases hl : lookupNode (Node.map rc.tree) ["env", x] with
        | some nd2 =>
          rw [hl] at h
          have hnd : nd2 = nd := by
            injection h with h2
            injection h2
          rw [hnd]
        | none =>
          rw [hl] at h
          exact absurd h (by simp)
  · rename_i x0 rest hside
    refine ⟨rest, rfl, ?_⟩
    cases hl : lookupNode (Node.map rc.tree) rest with
    | some nd2 =>
      rw [hl] at h
      have hnd : nd2 = nd := by
        injection h with h2
        injection h2
      rw [hnd]
    | none =>
      rw [hl] at h
      exact absurd h (by simp)
  · exact absurd h (by simp)

/-- A key bound in an entry list contributes its value's string paths,
prefixed with the key. -/
theorem lookup_stringPathsEntries (entries : List (String × Node))
    (k : String) (v : Node) (hl : entries.lookup k = some v) :
    ∀ q ∈ stringPaths v, k :: q ∈ stringPathsEntries entries := by
  induction entries with
  | nil => exact absurd hl (by simp [List.lookup])
  | cons kv rest ih =>
    obtain ⟨k1, v1⟩ := kv
    intro q hq
    rw [show stringPathsEntries ((k1, v1) :: rest)
        = (stringPaths v1).map (fun q => k1 :: q) ++ stringPathsEntries rest
        from by rw [stringPathsEntries]]
    simp only [List.lookup] at hl
    cases hbeq : (k == k1) with
    | true =>
      rw [hbeq] at hl
      have hk : k = k1 := by simpa using hbeq
      have hv : v1 = v := by injection hl
      subst hk
      subst hv
      exact List.mem_append.mpr (Or.inl (List.mem_map.mpr ⟨q, hq, rfl⟩))
    | false =>
      rw [hbeq] at hl
      exact List.mem_append.mpr (Or.inr (ih hl q hq))

/-- A string-valued tree path is in the universe of string paths. -/
theorem lookupNode_string_path :
    ∀ (q : List String) (n : Node) (s : String),
      lookupNode n q = some (Node.scalar (Scalar.str s)) →
      q ∈ stringPaths n := by
  intro q
  induction q with
  | nil =>
    intro n s h
    have hn : n = Node.scalar (Scalar.str s) := by
      simpa [lookupNode] using h
    subst hn
    simp [stringPaths]
  | cons k rest ih =>
    intro n s h
    cases n with
    | scalar sc => simp [lookupNode] at h
    | seq items => simp [lookupNode] at h
    | map entries =>
      rw [show lookupNode (Node.map entries) (k :: rest)
          = (match entries.lookup k with
             | some v => lookupNode v rest
             | Option.none => Option.none) from by rw [lookupNode]] at h
      cases hl : entries.lookup k with
      | none =>
        rw [hl] at h
        exact absurd h (by simp)
      | some v =>
        rw [hl] at h
        have hmem := ih v s h
        show k :: rest ∈ stringPaths (Node.map entries)
        rw [show stringPaths (Node.map entries) = stringPathsEntries entries
            from by rw [stringPaths]]
        exact lookup_stringPathsEntries entries k v hl rest hmem

/-- A key bound in an entry list contributes its value's strings. -/
theorem lookup_treeStringsEntries (entries : List (String × Node))
    (k : String) (v : Node) (hl : entries.lookup k = some v) :
    ∀ s ∈ treeStrings v, s ∈ treeStringsEntries entries := by
  induction entries with
  | nil => exact absurd hl (by simp [List.lookup])
  | cons kv rest ih =>
    obtain ⟨k1, v1⟩ := kv
    intro s hs
    rw [show treeStringsEntries ((k1, v1) :: rest)
        = treeStrings v1 ++ treeStringsEntries rest
        from by rw [treeStringsEntries]]
    simp only [List.lookup] at hl
    cases hbeq : (k == k1) with
    | true =>
      rw [hbeq] at hl
      have hv : v1 = v := by injection hl
      subst hv
      exact List.mem_append.mpr (Or.inl hs)
    | false =>
      rw [hbeq] at hl
      exact List.mem_append.mpr (Or.inr (ih hl s hs))

/-- The string value at a tree path is one of the tree's strings. -/
theorem lookupNode_string_mem :
    ∀ (q : List String) (n : Node) (s : String),
      lookupNode n q = some (Node.scalar (Scalar.str s)) →
      s ∈ treeStrings n := by
  intro q
  induction q with
  | nil =>
    intro n s h
    have hn : n = Node.scalar (Scalar.str s) := by
      simpa [lookupNode] using h
    subst hn
    simp [treeStrings]
  | cons k rest ih =>
    intro n s h
    cases n with
    | scalar sc => simp [lookupNode] at h
    | seq items => simp [lookupNode] at h
    | map entries =>
      rw [show lookupNode (Node.map entries) (k :: rest)
          = (match entries.lookup k with
             | some v => lookupNode v rest
             | Option.none => Option.none) from by rw [lookupNode]] at h
      cases hl : entries.lookup k with
      | none =>
        rw [hl] at h
        exact absurd h (by simp)
      | some v =>
        rw [hl] at h
        have hmem := ih v s h
        show s ∈ treeStrings (Node.map entries)
        rw [show treeStrings (Node.map entries) = treeStringsEntries entries
            from by rw [treeStrings]]
        exact lookup_treeStringsEntries entries k v hl s hmem

/-- Every path the resolver can mark in progress lies in the finite
universe of string paths. -/
theorem findEntry_string_mem_universe {rc : RenderContext} {p : TPath}
    {s : String}
    (h : findEntry rc p = some (Entry.node (Node.scalar (Scalar.str s)))) :
    p ∈ stringTPaths rc := by
  obtain ⟨rest, hp, hl⟩ := findEntry_node_lookup h
  subst hp
  exact List.mem_map.mpr ⟨rest, lookupNode_string_path rest _ s hl, rfl⟩

/-- The string value of an in-progress path is one of the tree's strings. -/
theorem findEntry_string_treeString {rc : RenderContext} {p : TPath}
    {s : String}
    (h : findEntry rc p = some (Entry.node (Node.scalar (Scalar.str s)))) :
    s ∈ treeStrings (Node.map rc.tree) := by
  obtain ⟨rest, hp, hl⟩ := findEntry_node_lookup h
  exact lookupNode_string_mem rest _ s hl

/-- Reference membership in a segment list is membership in its reference
path list. -/
theorem refsOfParts_mem {q : TPath} :
    ∀ {parts : List TemplatePart},
      TemplatePart.ref q ∈ parts → q ∈ refsOfParts parts := by
  intro parts
  induction parts with
  | nil => intro h; exact absurd h (List.not_mem_nil _)
  | cons part rest ih =>
    intro h
    cases part with
    | lit s =>
      rcases List.mem_cons.mp h with heq | hmem
      · exact absurd heq (by simp)
      · rw [show refsOfParts (TemplatePart.lit s :: rest) = refsOfParts rest
            from by rw [refsOfParts]]
        exact ih hmem
    | ref q2 =>
      rw [show refsOfParts (TemplatePart.ref q2 :: rest)
          = q2 :: refsOfParts rest from by rw [refsOfParts]]
      rcases List.mem_cons.mp h with heq | hmem
      · have : q = q2 := by injection heq
        subst this
        exact List.mem_cons_self _ _
      · exact List.mem_cons_of_mem _ (ih hmem)

/-- The in-progress list is always a descending dependency chain: each
in-progress path has an edge into the path whose resolution it started. -/
def DescChain (rc : RenderContext) : List TPath → TPath → Prop
  | [], _ => True
  | v :: rest, p => EdgeB rc v p ∧ DescChain rc rest v

/-- From any member of a descending chain there is an edge path down to
the chain's current path. -/
theorem descChain_mem_chain {rc : RenderContext} :
    ∀ {visited p}, DescChain rc visited p →
      ∀ q ∈ visited, ∃ ps, EdgeChain rc q ps p := by
  intro visited
  induction visited with
  | nil =>
    intro p _ q hq
    exact absurd hq (List.not_mem_nil _)
  | cons v rest ih =>
    intro p hdesc q hq
    obtain ⟨hvp, hrest⟩ := hdesc
    rcases List.mem_cons.mp hq with heq | hmem
    · subst heq
      exact ⟨[], hvp⟩
    · obtain ⟨ps, hchain⟩ := ih hrest q hmem
      exact ⟨ps ++ [v], edgeChain_snoc hchain hvp⟩

/-- A cycle error raised anywhere during resolution names a path that
really lies on a dependency cycle. -/
theorem resolvePath_cycle_error_on_cycle {rc : RenderContext} :
    ∀ (fuel : Nat) {visited : List TPath} {p q : TPath},
      DescChain rc visited p →
      resolvePath rc fuel visited p
        = Except.error (RenderError.cycleDetected q) →
      OnRefCycle rc q := by
  intro fuel
  induction fuel with
  | zero =>
    intro visited p q hdesc h
    rw [resolvePath_zero] at h
    exact absurd h (by simp)
  | succ fuel ih =>
    intro visited p q hdesc h
    cases hfe : findEntry rc p with
    | none =>
      rw [resolvePath_succ_none fuel visited hfe] at h
      exact absurd h (by simp)
    | some entry =>
      cases entry with
      | verbatim v =>
        rw [resolvePath_succ_verbatim fuel visited hfe] at h
        exact absurd h (by simp)
      | node nd =>
        by_cases hmem : p ∈ visited
        · rw [resolvePath_succ_node fuel visited hfe, if_pos hmem] at h
          have hq : p = q := by
            injection h with h2
            injection h2
          subst hq
          obtain ⟨ps, hchain⟩ := descChain_mem_chain hdesc p hmem
          exact ⟨ps, hchain⟩
        · cases nd with
          | scalar sc =>
            cases sc with
            | str s =>
              rw [resolvePath_succ_string fuel visited hfe hmem] at h
              obtain ⟨q2, hqmem, hq2err⟩ := resolveTemplateString_error_refs h
              have hdesc2 : DescChain rc (p :: visited) q2 :=
                ⟨⟨s, hfe, hqmem⟩, hdesc⟩
              exact ih hdesc2 hq2err
            | int i =>
              have hok : resolvePath rc (fuel + 1) visited p
                  = Except.ok (Scalar.int i) := by
                rw [resolvePath_succ_node fuel visited hfe, if_neg hmem]
              rw [hok] at h
              exact absurd h (by simp)
            | bool b =>
              have hok : resolvePath rc (fuel + 1) visited p
                  = Except.ok (Scalar.bool b) := by
                rw [resolvePath_succ_node fuel visited hfe, if_neg hmem]
              rw [hok] at h
              exact absurd h (by simp)
            | null =>
              have hok : resolvePath rc (fuel + 1) visited p
                  = Except.ok Scalar.null := by
                rw [resolvePath_succ_node fuel visited hfe, if_neg hmem]
              rw [hok] at h
              exact absurd h (by simp)
          | map entries =>
            have herr : resolvePath rc (fuel + 1) visited p
                = Except.error (RenderError.notScalar p) := by
              rw [resolvePath_succ_node fuel visited hfe, if_neg hmem]
            rw [herr] at h
            exact absurd h (by simp)
          | seq items =>
            have herr : resolvePath rc (fuel + 1) visited p
                = Except.error (RenderError.notScalar p) := by
              rw [resolvePath_succ_node fuel visited hfe, if_neg hmem]
            rw [herr] at h
            exact absurd h (by simp)

/-- A cycle error surfaced by resolving a string value from a fresh state
names a path on a dependency cycle. -/
theorem resolveTemplateString_cycle_on_cycle {rc : RenderContext}
    {fuel : Nat} {s : String} {q : TPath}
    (h : resolveTemplateString rc fuel [] s
      = Except.error (RenderError.cycleDetected q)) :
    OnRefCycle rc q := by
  obtain ⟨q2, hmem, herr⟩ := resolveTemplateString_error_refs h
  exact resolvePath_cycle_error_on_cycle fuel
    (show DescChain rc [] q2 from trivial) herr

/-- Fuel is spent only when a fresh path enters the in-progress set, and
in-progress paths are distinct members of the finite string-path universe;
by pigeonhole, fuel exceeding that universe's size is never exhausted —
resolution always terminates without the depth bound firing. -/
theorem resolvePath_no_fuel_exhaustion {rc : RenderContext} :
    ∀ (fuel : Nat) (visited : List TPath) (p : TPath),
      visited.Nodup → (∀ v ∈ visited, v ∈ stringTPaths rc) →
      (stringTPaths rc).toFinset.card + 1 ≤ fuel + visited.length →
      resolvePath rc fuel visited p ≠ Except.error RenderError.outOfFuel := by
  intro fuel
  induction fuel with
  | zero =>
    intro visited p hnd hsub hcard
    exfalso
    have h1 : visited.toFinset.card = visited.length :=
      List.toFinset_card_of_nodup hnd
    have h2 : visited.toFinset ⊆ (stringTPaths rc).toFinset := by
      intro x hx
      exact List.mem_toFinset.mpr (hsub x (List.mem_toFinset.mp hx))
    have h3 := Finset.card_le_card h2
    omega
  | succ fuel ih =>
    intro visited p hnd hsub hcard h
    cases hfe : findEntry rc p with
    | none =>
      rw [resolvePath_succ_none fuel visited hfe] at h
      exact absurd h (by simp)
    | some entry =>
      cases entry with
      | verbatim v =>
        rw [resolvePath_succ_verbatim fuel visited hfe] at h
        exact absurd h (by simp)
      | node nd =>
        by_cases hmem : p ∈ visited
        · rw [resolvePath_succ_node fuel visited hfe, if_pos hmem] at h
          exact absurd h (by simp)
        · cases nd with
          | scalar sc =>
            cases sc with
            | str s =>
              rw [resolvePath_succ_string fuel visited hfe hmem] at h
              obtain ⟨q2, hqmem, herr⟩ := resolveTemplateString_error_refs h
              refine ih (p :: visited) q2
                (List.nodup_cons.mpr ⟨hmem, hnd⟩) ?_ ?_ herr
              · intro v hv
                rcases List.mem_cons.mp hv with heq | hv2
                · subst heq
                  exact findEntry_string_mem_universe hfe
                · exact hsub v hv2
              · simp only [List.length_cons]
                omega
            | int i =>
              have hok : resolvePath rc (fuel + 1) visited p
                  = Except.ok (Scalar.int i) := by
                rw [resolvePath_succ_node fuel visited hfe, if_neg hmem]
              rw [hok] at h
              exact absurd h (by simp)
            | bool b =>
              have hok : resolvePath rc (fuel + 1) visited p
                  = Except.ok (Scalar.bool b) := by
                rw [resolvePath_succ_node fuel visited hfe, if_neg hmem]
              rw [hok] at h
              exact absurd h (by simp)
            | null =>
              have hok : resolvePath rc (fuel + 1) visited p
                  = Except.ok Scalar.null := by
                rw [resolvePath_succ_node fuel visited hfe, if_neg hmem]
              rw [hok] at h
              exact absurd h (by simp)
          | map entries =>
            have herr : resolvePath rc (fuel + 1) visited p
                = Except.error (RenderError.notScalar p) := by
              rw [resolvePath_succ_node fuel visited hfe, if_neg hmem]
            rw [herr] at h
            exact absurd h (by simp)
          | seq items =>
            have herr : resolvePath rc (fuel + 1) visited p
                = Except.error (RenderError.notScalar p) := by
              rw [resolvePath_succ_node fuel visited hfe, if_neg hmem]
            rw [herr] at h
            exact absurd h (by simp)

/-- With the default fuel, resolving any string value from a fresh state
never exhausts the depth bound. -/
theorem resolveTemplateString_no_fuel {rc : RenderContext} {s : String}
    (h : resolveTemplateString rc (defaultFuel rc) [] s
      = Except.error RenderError.outOfFuel) : False := by
  obtain ⟨q, hqmem, herr⟩ := resolveTemplateString_error_refs h
  refine resolvePath_no_fuel_exhaustion (defaultFuel rc) [] q
    List.nodup_nil (by intro v hv; exact absurd hv (List.not_mem_nil _)) ?_ herr
  have hle := List.toFinset_card_le (stringTPaths rc)
  unfold defaultFuel
  omega

/-- An entry that resolution can return from directly: a verbatim
environment value or a scalar tree node. -/
def ScalarEntry : Entry → Prop
  | Entry.verbatim _ => True
  | Entry.node (Node.scalar _) => True
  | Entry.node _ => False

/-- The path denotes an entry that is a scalar (verbatim or scalar node). -/
def SafeTarget (rc : RenderContext) (q : TPath) : Prop :=
  ∃ e, findEntry rc q = some e ∧ ScalarEntry e

/-- Every reference mentioned anywhere in the tree's string values points
at an existing scalar-valued entry (no unknown paths, no non-scalar
targets). -/
def WellFormedRefs (rc : RenderContext) : Prop :=
  ∀ q ∈ treeRefs (Node.map rc.tree), SafeTarget rc q

/-- Under well-formed references, resolving a safe path can only fail
with a cycle error or by exhausting fuel: unknown-path and non-scalar
errors are impossible. -/
theorem resolvePath_safe_errors {rc : RenderContext}
    (hwf : WellFormedRefs rc) :
    ∀ (fuel : Nat) (visited : List TPath) (q : TPath), SafeTarget rc q →
      ∀ e, resolvePath rc fuel visited q = Except.error e →
        e = RenderError.outOfFuel ∨ ∃ r, e = RenderError.cycleDetected r := by
  intro fuel
  induction fuel with
  | zero =>
    intro visited q hsafe e h
    rw [resolvePath_zero] at h
    have he : RenderError.outOfFuel = e := by injection h
    exact Or.inl he.symm
  | succ fuel ih =>
    intro visited q hsafe e h
    obtain ⟨entry, hfe, hscalar⟩ := hsafe
    cases entry with
    | verbatim v =>
      rw [resolvePath_succ_verbatim fuel visited hfe] at h
      exact absurd h (by simp)
    | node nd =>
      by_cases hmem : q ∈ visited
      · rw [resolvePath_succ_node fuel visited hfe, if_pos hmem] at h
        have he : RenderError.cycleDetected q = e := by injection h
        exact Or.inr ⟨q, he.symm⟩
      · cases nd with
        | scalar sc =>
          cases sc with
          | str s =>
            rw [resolvePath_succ_string fuel visited hfe hmem] at h
            obtain ⟨q2, hqmem, herr⟩ := resolveTemplateString_error_refs h
            have hq2safe : SafeTarget rc q2 := by
              refine hwf q2 ?_
              unfold treeRefs
              exact List.mem_flatMap.mpr
                ⟨s, findEntry_string_treeString hfe, refsOfParts_mem hqmem⟩
            exact ih (q :: visited) q2 hq2safe e herr
          | int i =>
            have hok : resolvePath rc (fuel + 1) visited q
                = Except.ok (Scalar.int i) := by
              rw [resolvePath_succ_node fuel visited hfe, if_neg hmem]
            rw [hok] at h
            exact absurd h (by simp)
          | bool b =>
            have hok : resolvePath rc (fuel + 1) visited q
                = Except.ok (Scalar.bool b) := by
              rw [resolvePath_succ_node fuel visited hfe, if_neg hmem]
            rw [hok] at h
            exact absurd h (by simp)
          | null =>
            have hok : resolvePath rc (fuel + 1) visited q
                = Except.ok Scalar.null := by
              rw [resolvePath_succ_node fuel visited hfe, if_neg hmem]
            rw [hok] at h
            exact absurd h (by simp)
        | map entries => exact absurd hscalar (by simp [ScalarEntry])
        | seq items => exact absurd hscalar (by simp [ScalarEntry])

/-- **C1**: for every definition containing a self-referential template
chain (a dependency cycle in the reference graph), resolution terminates —
the depth bound is never the reported outcome — and never returns a
(partially) resolved result; and whenever the definition's references are
otherwise well formed, it reports a cycle error naming a path that lies on
a cycle, with the message "Cycle detected in templating variable <path>". -/
theorem resolution_detects_reference_cycles (rc : RenderContext)
    (hcyc : HasRefCycle rc) :
    resolveDefinition rc ≠ Except.error RenderError.outOfFuel ∧
    (∀ out, resolveDefinition rc ≠ Except.ok out) ∧
    (WellFormedRefs rc →
      ∃ q, resolveDefinition rc = Except.error (RenderError.cycleDetected q) ∧
        OnRefCycle rc q ∧
        renderErrorMessage (RenderError.cycleDetected q)
          = "Cycle detected in templating variable " ++ pathDotted q) := by
  have hnofuel : resolveDefinition rc ≠ Except.error RenderError.outOfFuel := by
    intro h
    unfold resolveDefinition at h
    obtain ⟨s, hmem, herr⟩ :=
      resolveTree_error_strings rc (defaultFuel rc) (Node.map rc.tree) _ h
    exact resolveTemplateString_no_fuel herr
  have hnosucc : ∀ out, resolveDefinition rc ≠ Except.ok out := by
    intro out h
    unfold resolveDefinition at h
    obtain ⟨p0, ps, hchain⟩ := hcyc
    cases ps with
    | nil =>
      have hedge : EdgeB rc p0 p0 := hchain
      obtain ⟨s, hfe, hqmem⟩ := hedge
      have hstr : s ∈ treeStrings (Node.map rc.tree) :=
        findEntry_string_treeString hfe
      obtain ⟨v, hok⟩ := resolveTree_ok_strings rc (defaultFuel rc)
        (Node.map rc.tree) out h s hstr
      obtain ⟨w, hw⟩ := resolveTemplateString_ok_refs hok p0 hqmem
      exact onRefCycle_no_success ⟨[], hchain⟩ (defaultFuel rc) [] w hw
    | cons x xs =>
      have hchain2 : EdgeB rc p0 x ∧ EdgeChain rc x xs p0 := hchain
      obtain ⟨he, hrest⟩ := hchain2
      obtain ⟨s, hfe, hqmem⟩ := he
      have hstr : s ∈ treeStrings (Node.map rc.tree) :=
        findEntry_string_treeString hfe
      obtain ⟨v, hok⟩ := resolveTree_ok_strings rc (defaultFuel rc)
        (Node.map rc.tree) out h s hstr
      obtain ⟨w, hw⟩ := resolveTemplateString_ok_refs hok x hqmem
      have hcycx : OnRefCycle rc x :=
        ⟨xs ++ [p0], edgeChain_snoc hrest ⟨s, hfe, hqmem⟩⟩
      exact onRefCycle_no_success hcycx (defaultFuel rc) [] w hw
  refine ⟨hnofuel, hnosucc, ?_⟩
  intro hwf
  cases hres : resolveDefinition rc with
  | ok out => exact absurd hres (hnosucc out)
  | error e =>
    have hres2 := hres
    unfold resolveDefinition at hres2
    obtain ⟨s, hmem, herr⟩ :=
      resolveTree_error_strings rc (defaultFuel rc) (Node.map rc.tree) _ hres2
    cases e with
    | outOfFuel => exact absurd hres hnofuel
    | cycleDetected q =>
      exact ⟨q, rfl, resolveTemplateString_cycle_on_cycle herr, rfl⟩
    | couldNotFind r =>
      obtain ⟨q2, hqmem, herr2⟩ := resolveTemplateString_error_refs herr
      have hsafe : SafeTarget rc q2 := by
        refine hwf q2 ?_
        unfold treeRefs
        exact List.mem_flatMap.mpr ⟨s, hmem, refsOfParts_mem hqmem⟩
      rcases resolvePath_safe_errors hwf (defaultFuel rc) [] q2 hsafe _ herr2
        with h1 | ⟨r2, h2⟩
      · exact absurd h1 (by simp)
      · exact absurd h2 (by simp)
    | notScalar r =>
      obtain ⟨q2, hqmem, herr2⟩ := resolveTemplateString_error_refs herr
      have hsafe : SafeTarget rc q2 := by
        refine hwf q2 ?_
        unfold treeRefs
        exact List.mem_flatMap.mpr ⟨s, hmem, refsOfParts_mem hqmem⟩
      rcases resolvePath_safe_errors hwf (defaultFuel rc) [] q2 hsafe _ herr2
        with h1 | ⟨r2, h2⟩
      · exact absurd h1 (by simp)
      · exact absurd h2 (by simp)

/-- Context for the C1 witness: the in-file env defaults `A` and `B`
reference each other (`A -> B -> A`), the second cycle shape of
`test_resolve_variables_error_on_cycle`. -/
def rcCyclic : RenderContext :=
  { tree := [("definition_version", Node.scalar (Scalar.str "1.1")),
             ("env", Node.map
               [("A", Node.scalar (Scalar.str "<% ctx.env.B %>")),
                ("B", Node.scalar (Scalar.str "<% ctx.env.A %>"))])] }

/-- Witness for C1 at a concrete input: the `A -> B -> A` definition is
rejected with a cycle error naming a path on the cycle, and never
resolves successfully. -/
theorem resolution_detects_reference_cycles_witness :
    (∀ out, resolveDefinition rcCyclic ≠ Except.ok out) ∧
    (∃ q, resolveDefinition rcCyclic
        = Except.error (RenderError.cycleDetected q) ∧
      OnRefCycle rcCyclic q ∧
      renderErrorMessage (RenderError.cycleDetected q)
        = "Cycle detected in templating variable " ++ pathDotted q) := by
  have hAB : EdgeB rcCyclic ["ctx", "env", "A"] ["ctx", "env", "B"] := by
    refine ⟨"<% ctx.env.B %>", rfl, ?_⟩
    rw [show templateParts "<% ctx.env.B %>"
        = [TemplatePart.ref ["ctx", "env", "B"]] from rfl]
    exact List.mem_singleton.mpr rfl
  have hBA : EdgeB rcCyclic ["ctx", "env", "B"] ["ctx", "env", "A"] := by
    refine ⟨"<% ctx.env.A %>", rfl, ?_⟩
    rw [show templateParts "<% ctx.env.A %>"
        = [TemplatePart.ref ["ctx", "env", "A"]] from rfl]
    exact List.mem_singleton.mpr rfl
  have hcyc : HasRefCycle rcCyclic :=
    ⟨["ctx", "env", "A"], [["ctx", "env", "B"]], hAB, hBA⟩
  have hwf : WellFormedRefs rcCyclic := by
    intro q hq
    rw [show treeRefs (Node.map rcCyclic.tree)
        = [["ctx", "env", "B"], ["ctx", "env", "A"]] from rfl] at hq
    rcases List.mem_cons.mp hq with heq | hq2
    · subst heq
      exact ⟨Entry.node (Node.scalar (Scalar.str "<% ctx.env.A %>")),
        rfl, trivial⟩
    · rcases List.mem_cons.mp hq2 with heq | hq3
      · subst heq
        exact ⟨Entry.node (Node.scalar (Scalar.str "<% ctx.env.B %>")),
          rfl, trivial⟩
      · exact absurd hq3 (List.not_mem_nil _)
  have h := resolution_detects_reference_cycles rcCyclic hcyc
  exact ⟨h.2.1, h.2.2 hwf⟩

end SnowCLI
